import Mathlib

/-!
Verification development for the DLHD extractor pipeline
(`src/dlhd_extractor_cli.py`).  The Python source is shallowly embedded:
pure fragments become Lean functions over `String` / `List Char`, the
stateful orchestration becomes explicit state passing, and network
effects become oracle parameters recording which requests were issued.
-/

set_option maxRecDepth 4000

namespace DLHD

abbrev Chars := List Char

/-! ## Python string primitives used by the source -/

/-- Fuel-driven worker for `pyReplaceL`; fuel `≥ s.length` always suffices
because each step consumes at least one character. -/
def pyReplaceAux (p r : Chars) : Nat → Chars → Chars
  | 0, s => s
  | _ + 1, [] => []
  | fuel + 1, c :: cs =>
    if p.isPrefixOf (c :: cs) then r ++ pyReplaceAux p r fuel (cs.drop (p.length - 1))
    else c :: pyReplaceAux p r fuel cs

/-- Python `str.replace(old, new)`: replace every occurrence of `p`,
scanning left to right without overlap.  Char-list version. -/
def pyReplaceL (p r s : Chars) : Chars := pyReplaceAux p r s.length s

/-- Python `str.replace(old, new)` on `String`. -/
def pyReplace (p r s : String) : String := ⟨pyReplaceL p.data r.data s.data⟩

/-- Python `sub in s` (substring containment). Char-list version. -/
def containsSubL (needle : Chars) : Chars → Bool
  | [] => needle.isPrefixOf []
  | c :: cs => needle.isPrefixOf (c :: cs) || containsSubL needle cs

/-- Python `sub in s` on `String`. -/
def containsSub (needle s : String) : Bool := containsSubL needle.data s.data

/-- Python `s.split(sep)[0]`: the part of `s` before the first `sep`. -/
def pySplitFirst (sep : Char) (s : String) : String :=
  ⟨s.data.takeWhile (· ≠ sep)⟩

/-! ## URL synthesis (`get_stream_data`, lines 353-360)

```python
if server_key == 'top1/cdn':
    clean_m3u8_url = f'https://top1.newkso.ru/top1/cdn/{channel_key}/mono.m3u8'
elif '/' in server_key:
    parts = server_key.split('/')
    domain = parts[0]
    clean_m3u8_url = f'https://{domain}.newkso.ru/{server_key}/{channel_key}/mono.m3u8'
else:
    clean_m3u8_url = f'https://{server_key}new.newkso.ru/{server_key}/{channel_key}/mono.m3u8'.replace('top2new', 'top1new')
```
-/

def cleanM3u8Url (server_key channel_key : String) : String :=
  if server_key = "top1/cdn" then
    "https://top1.newkso.ru/top1/cdn/" ++ channel_key ++ "/mono.m3u8"
  else if containsSub "/" server_key then
    let domain := pySplitFirst '/' server_key
    "https://" ++ domain ++ ".newkso.ru/" ++ server_key ++ "/" ++ channel_key ++ "/mono.m3u8"
  else
    pyReplace "top2new" "top1new"
      ("https://" ++ server_key ++ "new.newkso.ru/" ++ server_key ++ "/" ++ channel_key ++ "/mono.m3u8")

/-- The synthesis function exactly as claim C2 words it: the literal fix
`top2new → top1new` is applied only when `server_key` is exactly
`"top2new"`, and to no other server key. -/
def cleanM3u8UrlClaimC2 (server_key channel_key : String) : String :=
  if server_key = "top1/cdn" then
    "https://top1.newkso.ru/top1/cdn/" ++ channel_key ++ "/mono.m3u8"
  else if containsSub "/" server_key then
    let domain := pySplitFirst '/' server_key
    "https://" ++ domain ++ ".newkso.ru/" ++ server_key ++ "/" ++ channel_key ++ "/mono.m3u8"
  else
    let url := "https://" ++ server_key ++ "new.newkso.ru/" ++ server_key ++ "/" ++ channel_key ++ "/mono.m3u8"
    if server_key = "top2new" then pyReplace "top2new" "top1new" url else url

/-! ## Channel-id extraction (`extract_channel_id`, lines 208-214, and
`invalidate_cache_for_url`, lines 410-420)

Both functions run the same ordered Python regex list with `re.IGNORECASE`:
```python
patterns = [r'/premium(\d+)/mono\.m3u8$',
            r'/(?:watch|stream|cast|player)/stream-(\d+)\.php',
            r'watch\.php\?id=(\d+)',
            r'(?:%2F|/)stream-(\d+)\.php',
            r'stream-(\d+)\.php']
```
Each pattern is compiled by hand into a matcher that tries to match at a
given position; `re.search` semantics (leftmost match wins) is `reSearchL`.
Greedy `\d+` followed by a non-digit literal never needs backtracking, so
maximal munch is exact. -/

/-- ASCII lower-casing, the effect of `re.IGNORECASE` on these patterns. -/
def lowerAscii (c : Char) : Char :=
  if 'A' ≤ c ∧ c ≤ 'Z' then Char.ofNat (c.toNat + 32) else c

/-- Match a literal (case-insensitively) at the head, returning the rest. -/
def matchLitCI : Chars → Chars → Option Chars
  | [], s => some s
  | _ :: _, [] => none
  | p :: ps, c :: cs => if lowerAscii c = lowerAscii p then matchLitCI ps cs else none

/-- Match `\d+` (greedy) at the head, returning the digits and the rest. -/
def matchDigits1 : Chars → Option (Chars × Chars)
  | [] => none
  | c :: cs =>
    if c.isDigit then some ((c :: cs).takeWhile (·.isDigit), (c :: cs).dropWhile (·.isDigit))
    else none

/-- First alternative of a `(?:a|b|...)` group that matches at the head. -/
def matchAltCI : List Chars → Chars → Option Chars
  | [], _ => none
  | a :: as, s => match matchLitCI a s with | some r => some r | none => matchAltCI as s

/-- `re.search`: try the position matcher at each position, leftmost first
(including the end-of-string position). -/
def reSearchL (m : Chars → Option Chars) : Chars → Option Chars
  | [] => m []
  | c :: cs => match m (c :: cs) with | some d => some d | none => reSearchL m cs

/-- `/premium(\d+)/mono\.m3u8$` at a position. -/
def matchPremiumAt (s : Chars) : Option Chars :=
  (matchLitCI "/premium".data s).bind fun r1 =>
  (matchDigits1 r1).bind fun dr =>
  (matchLitCI "/mono.m3u8".data dr.2).bind fun r3 =>
  if r3 = [] then some dr.1 else none

/-- `/(?:watch|stream|cast|player)/stream-(\d+)\.php` at a position. -/
def matchPlayerStreamAt (s : Chars) : Option Chars :=
  (matchLitCI "/".data s).bind fun r0 =>
  (matchAltCI ["watch".data, "stream".data, "cast".data, "player".data] r0).bind fun r1 =>
  (matchLitCI "/stream-".data r1).bind fun r2 =>
  (matchDigits1 r2).bind fun dr =>
  (matchLitCI ".php".data dr.2).map fun _ => dr.1

/-- `watch\.php\?id=(\d+)` at a position. -/
def matchWatchIdAt (s : Chars) : Option Chars :=
  (matchLitCI "watch.php?id=".data s).bind fun r =>
  (matchDigits1 r).map fun dr => dr.1

/-- `(?:%2F|/)stream-(\d+)\.php` at a position. -/
def matchEncodedStreamAt (s : Chars) : Option Chars :=
  (matchAltCI ["%2F".data, "/".data] s).bind fun r0 =>
  (matchLitCI "stream-".data r0).bind fun r1 =>
  (matchDigits1 r1).bind fun dr =>
  (matchLitCI ".php".data dr.2).map fun _ => dr.1

/-- `stream-(\d+)\.php` at a position. -/
def matchBareStreamAt (s : Chars) : Option Chars :=
  (matchLitCI "stream-".data s).bind fun r1 =>
  (matchDigits1 r1).bind fun dr =>
  (matchLitCI ".php".data dr.2).map fun _ => dr.1

/-- Try each pattern in order over the whole string; first pattern that
matches anywhere wins (the `for pattern in patterns` loop). -/
def firstPatternL : List (Chars → Option Chars) → Chars → Option Chars
  | [], _ => none
  | p :: ps, s => match reSearchL p s with | some d => some d | none => firstPatternL ps s

/-- `extract_channel_id` (nested in `extract`, lines 208-214). -/
def extract_channel_id (u : String) : Option String :=
  (firstPatternL
    [matchPremiumAt, matchPlayerStreamAt, matchWatchIdAt, matchEncodedStreamAt,
     matchBareStreamAt] u.data).map (⟨·⟩)

/-- The channel-id derivation inside `invalidate_cache_for_url`
(lines 411-417): the same pattern list, re-stated there verbatim. -/
def invalidateChannelId (u : String) : Option String :=
  (firstPatternL
    [matchPremiumAt, matchPlayerStreamAt, matchWatchIdAt, matchEncodedStreamAt,
     matchBareStreamAt] u.data).map (⟨·⟩)

/-- Python `del d[k]` on an association-list dict (keys are unique). -/
def delKey {α : Type} (cid : String) : List (String × α) → List (String × α)
  | [] => []
  | kv :: rest => if kv.1 = cid then rest else kv :: delKey cid rest

/-- Python `k in d` on an association-list dict. -/
def hasKey {α : Type} (cid : String) (l : List (String × α)) : Bool :=
  l.any (fun kv => kv.1 = cid)

/-- `invalidate_cache_for_url` acting on the cache map (lines 418-420):
delete the derived channel id if it is present. -/
def invalidate_cache_for_url {α : Type} (u : String) (cache : List (String × α)) :
    List (String × α) :=
  match invalidateChannelId u with
  | some cid => if ¬cid.isEmpty ∧ hasKey cid cache then delKey cid cache else cache
  | none => cache

example : extract_channel_id "https://x.y/premium4231/mono.m3u8" = some "4231" := by decide
example : extract_channel_id "https://daddylive.sx/watch.php?id=771" = some "771" := by decide
example : extract_channel_id "https://d.x/stream/stream-88.php" = some "88" := by decide
example : extract_channel_id "https://d.x/cast/stream-13.php" = some "13" := by decide
example : extract_channel_id "https://x/PREMIUM9/MONO.M3U8" = some "9" := by decide
example : extract_channel_id "https://x%2Fstream-5.php" = some "5" := by decide
example : extract_channel_id "https://nothing.here/" = none := by decide
example : extract_channel_id "https://x.y/premium4231/mono.m3u8?x=1" = none := by decide

/-! ## Auth-parameter extraction (`_extract_auth_params_dynamic`, lines 217-252)

A candidate blob that survives `base64.b64decode` + `json.loads` is an
object; its relevant values are strings.  The per-value
`base64.b64decode(...).decode('utf-8')`-or-verbatim step is the parameter
`dec` (`some` = the decode succeeded, `none` = it raised and the value is
used verbatim).  Candidates whose blob-level decode/parse raised are `none`
entries in the candidate list (`except Exception: continue`). -/

/-- The alias table, verbatim from lines 225-231. -/
def key_mappings : List (String × List String) :=
  [("auth_host", ["host", "b_host", "server", "domain"]),
   ("auth_php", ["script", "b_script", "php", "path"]),
   ("auth_ts", ["ts", "b_ts", "timestamp", "time"]),
   ("auth_rnd", ["rnd", "b_rnd", "random", "nonce"]),
   ("auth_sig", ["sig", "b_sig", "signature", "sign"])]

/-- Scan one field's alias list in priority order; the first name present
in the object wins, its value base64-decoded when possible (lines 236-244). -/
def findAlias (dec : String → Option String) (obj : List (String × String)) :
    List String → Option String
  | [] => none
  | name :: rest =>
    match obj.lookup name with
    | some v => some ((dec v).getD v)
    | none => findAlias dec obj rest

/-- Build the result over all five logical fields; any missing field makes
the whole blob incomplete (lines 232-249). -/
def buildAuthParams (dec : String → Option String) (obj : List (String × String)) :
    List (String × List String) → Option (List (String × String))
  | [] => some []
  | (target_key, possible_names) :: rest =>
    match findAlias dec obj possible_names with
    | some v => (buildAuthParams dec obj rest).map (fun r => (target_key, v) :: r)
    | none => none

/-- What one candidate blob yields: `none` if its base64/JSON decode raised
or if some logical field is missing. -/
def candidateResult (dec : String → Option String)
    (cand : Option (List (String × String))) : Option (List (String × String)) :=
  cand.bind (fun obj => buildAuthParams dec obj key_mappings)

/-- `_extract_auth_params_dynamic`: first complete candidate wins; `none`
models the `return {}` fall-through. -/
def extract_auth_params_dynamic (dec : String → Option String) :
    List (Option (List (String × String))) → Option (List (String × String))
  | [] => none
  | cand :: rest =>
    match candidateResult dec cand with
    | some r => some r
    | none => extract_auth_params_dynamic dec rest

/-! ## Transport retry loop (`_make_robust_request`, lines 148-188)

One attempt of the `for attempt in range(retries)` body either returns a
response, raises one of the network exceptions of line 171
(`ClientConnectionError`, `ServerDisconnectedError`, `ClientPayloadError`,
`TimeoutError`, `OSError`, `ConnectionResetError`), or raises any other
exception (e.g. the `ExtractorError("Decompression failed: ...")` from
`_handle_response_content`, or the HTTP `raise_for_status` error). -/

inductive AttemptOutcome : Type where
  | ok (content : String)
  | netErr
  | otherErr (msg : String)
deriving DecidableEq, Repr

inductive ReqOutcome : Type where
  /-- A response (or `None`, when `retries = 0` falls off the loop end)
  was returned to the caller. -/
  | returned (body : Option String)
  /-- An `ExtractorError` with this message escaped. -/
  | raised (msg : String)
deriving DecidableEq, Repr

structure RunResult where
  result : ReqOutcome
  /-- Backoff sleeps performed, as (attempt index, delay). -/
  sleeps : List (Nat × Nat)
  /-- Number of attempts started. -/
  attemptsMade : Nat
  /-- Whether the shared session was closed and discarded (line 172-178). -/
  sessionTornDown : Bool
deriving DecidableEq, Repr

/-- The retry loop body, from attempt `attempt` with `fuel = retries - attempt`
iterations left; `acc` accumulates the sleeps already performed. -/
def robustGo (outcomes : Nat → AttemptOutcome) (initialDelay : Nat) :
    Nat → Nat → List (Nat × Nat) → RunResult
  | attempt, 0, acc => ⟨.returned none, acc, attempt, false⟩
  | attempt, fuel + 1, acc =>
    match outcomes attempt with
    | .ok c => ⟨.returned (some c), acc, attempt + 1, false⟩
    | .netErr =>
      if fuel = 0 then ⟨.raised "All retries failed", acc, attempt + 1, true⟩
      else robustGo outcomes initialDelay (attempt + 1) fuel
        (acc ++ [(attempt, initialDelay * 2 ^ attempt)])
    | .otherErr m =>
      if fuel = 0 then ⟨.raised m, acc, attempt + 1, false⟩
      else robustGo outcomes initialDelay (attempt + 1) fuel acc

/-- `_make_robust_request`'s control flow as a function of the per-attempt
outcomes (defaults in the source: `retries=3, initial_delay=2`). -/
def makeRobustRequest (outcomes : Nat → AttemptOutcome)
    (retries initialDelay : Nat) : RunResult :=
  robustGo outcomes initialDelay 0 retries []

/-- The `ExtractorError` message produced when an attempt's exception
becomes fatal (lines 182 and 187). -/
def errMsgOf : AttemptOutcome → String
  | .ok _ => ""
  | .netErr => "All retries failed"
  | .otherErr m => m

/-- Attempt outcomes of one concrete scenario: a non-network
decompression failure on the first attempt, then a good response. -/
def decompressThenOk : Nat → AttemptOutcome
  | 0 => .otherErr "Decompression failed: zstd"
  | _ + 1 => .ok "body"

example : makeRobustRequest decompressThenOk 3 2 = ⟨.returned (some "body"), [], 2, false⟩ := by
  decide
example : makeRobustRequest (fun _ => .netErr) 3 2 =
    ⟨.raised "All retries failed", [(0, 2), (1, 4)], 3, true⟩ := by decide

/-! ## Auth failure self-healing (`get_stream_data`, lines 326-333)

```python
try:
    await self._make_robust_request(auth_url, headers=auth_headers, retries=1)
except Exception as auth_error:
    if channel_id in self._stream_data_cache:
        del self._stream_data_cache[channel_id]
        self._save_cache()
        return await get_stream_data(baseurl, initial_url, channel_id)
    raise ExtractorError(f"Auth failed: {auth_error}")
```
The pipeline after a successful auth request is abstracted to the
descriptor `d` it produces and the cache write of line 366-367; no step
between the cache deletion and the retried auth request mutates the cache
(the per-channel lock is held throughout `get_stream_data`). -/

/-- Python `d[k] = v` on an association-list dict. -/
def setKey {α : Type} (cid : String) (v : α) : List (String × α) → List (String × α)
  | [] => [(cid, v)]
  | kv :: rest => if kv.1 = cid then (cid, v) :: rest else kv :: setKey cid v rest

structure AuthRun (D : Type) where
  result : Except String D
  authAttempts : Nat
  finalCache : List (String × D)

theorem delKey_length_lt {α : Type} (cid : String) (l : List (String × α))
    (h : hasKey cid l = true) : (delKey cid l).length < l.length := by
  induction l with
  | nil => simp [hasKey] at h
  | cons kv rest ih =>
    by_cases hk : kv.1 = cid
    · simp only [delKey, if_pos hk, List.length_cons]
      omega
    · have h' : hasKey cid rest = true := by
        simp only [hasKey, List.any_cons, Bool.or_eq_true, decide_eq_true_eq] at h
        rcases h with h | h
        · exact absurd h hk
        · simpa [hasKey] using h
      simp only [delKey, if_neg hk, List.length_cons]
      exact Nat.succ_lt_succ (ih h')

/-- The auth step of `get_stream_data`, run `k` auth requests deep;
`authOk j` is whether the `j`-th auth request of this `extract` call
succeeds, `d` the descriptor the rest of the pipeline then produces. -/
def getStreamAuth {D : Type} (authOk : Nat → Bool) (d : D) (cid : String)
    (cache : List (String × D)) (k : Nat) : AuthRun D :=
  if authOk k then ⟨.ok d, k + 1, setKey cid d cache⟩
  else if h : hasKey cid cache then
    getStreamAuth authOk d cid (delKey cid cache) (k + 1)
  else ⟨.error "Auth failed", k + 1, cache⟩
termination_by cache.length
decreasing_by exact delKey_length_lt cid cache h
/-! ## Stream descriptor synthesis (`get_stream_data`, lines 353-367) -/

/-- The base user agent (`DLHDExtractor.__init__`, line 59); `daddylive_headers`
and the stream headers both carry it. -/
def UA : String :=
  "Mozilla/5.0 (Macintosh; Intel Mac OS X 10_15_7) AppleWebKit/537.36 (KHTML, like Gecko) Chrome/136.0.0.0 Safari/537.36"

/-- First position where `needle` occurs, returning what follows it. -/
def afterSubL (needle : Chars) : Chars → Option Chars
  | [] => if needle.isEmpty then some [] else none
  | c :: cs =>
    if needle.isPrefixOf (c :: cs) then some ((c :: cs).drop needle.length)
    else afterSubL needle cs

/-- `urlparse(u).netloc` for the URLs this pipeline handles: the text between
the first `//` and the next `/`, `?` or `#`. -/
def pyNetloc (u : String) : String :=
  match afterSubL "//".data u.data with
  | some rest => ⟨rest.takeWhile (fun c => c ≠ '/' ∧ c ≠ '?' ∧ c ≠ '#')⟩
  | none => ""

structure StreamDescriptor where
  destination_url : String
  request_headers : List (String × String)
  mediaflow_endpoint : String
deriving DecidableEq, Repr

/-- `self.mediaflow_endpoint` (`__init__`, line 62); never reassigned. -/
def mediaflow_endpoint : String := "hls_manifest_proxy"

/-- Lines 353-365: synthesize the manifest URL, choose the stream headers by
the `"newkso.ru" in clean_m3u8_url` test, and build `result_data`. -/
def streamResult (server_key channel_key iframe_url : String) : StreamDescriptor :=
  let clean_m3u8_url := cleanM3u8Url server_key channel_key
  let iframe_origin := "https://" ++ pyNetloc iframe_url
  let stream_headers :=
    if containsSub "newkso.ru" clean_m3u8_url then
      [("User-Agent", UA), ("Referer", iframe_url), ("Origin", iframe_origin)]
    else
      [("User-Agent", UA), ("Referer", iframe_origin), ("Origin", iframe_origin)]
  ⟨clean_m3u8_url, stream_headers, mediaflow_endpoint⟩

/-- A well-formed delivery URL: `https://`, then a slash-free host that ends
in `newkso.ru`, then a path. -/
def goodUrl (u : String) : Prop :=
  ∃ hst rest : Chars,
    u.data = "https://".data ++ hst ++ '/' :: rest ∧
    '/' ∉ hst ∧ "newkso.ru".data <:+ hst

/-! ## `extract` orchestration (lines 372-408)

The cache-hit validation, invalidation, double-checked locking and
resolution flow, with the network abstracted: `headStatus` is what the
validation HEAD probe returns (`none` = the request raised), and
`resolveResult` the outcome of `resolve_base_url` + `get_stream_data`.
The warm re-fetch of the input URL (lines 394-397) is fire-and-forget:
its outcome does not appear at all. -/

/-- A cached map value, as read back from disk: a dict whose fields are
accessed with `.get` (lines 378-379). -/
structure CachedData where
  destination_url : Option String
  request_headers : List (String × String)
  mediaflow_endpoint : Option String
deriving DecidableEq, Repr

inductive ExtractResult : Type where
  | ok (d : CachedData)
  | error (msg : String)
deriving DecidableEq, Repr

structure ExtractTrace where
  /-- The HEAD validation request issued, with its URL and headers. -/
  probed : Option (String × List (String × String))
  /-- Whether the best-effort re-fetch of the input URL was attempted. -/
  warmRefetched : Bool
  /-- Whether a full resolution (`resolve_base_url` + `get_stream_data`) ran. -/
  resolved : Bool
  result : ExtractResult
  cacheAfter : List (String × CachedData)
deriving DecidableEq, Repr

/-- Python truthiness of `cached_data.get('destination_url')`. -/
def pyTruthy : Option String → Bool
  | none => false
  | some s => ¬s.isEmpty

/-- The `async with lock:` section (lines 402-406): re-check the cache, then
resolve and write through on success. -/
def lockedSection (cid : String) (cache : List (String × CachedData))
    (resolveResult : ExtractResult)
    (probed : Option (String × List (String × String))) : ExtractTrace :=
  match cache.lookup cid with
  | some cached2 => ⟨probed, false, false, .ok cached2, cache⟩
  | none =>
    match resolveResult with
    | .ok d => ⟨probed, false, true, .ok d, setKey cid d cache⟩
    | .error e =>
      ⟨probed, false, true, .error ("DLHD extraction failed: " ++ e), cache⟩

/-- One `extract(url, force_refresh)` call (lines 372-408). -/
def extractStep (force_refresh : Bool) (url : String)
    (cache : List (String × CachedData)) (headStatus : Option Nat)
    (resolveResult : ExtractResult) : ExtractTrace :=
  match extract_channel_id url with
  | none =>
    ⟨none, false, false,
     .error ("DLHD extraction failed: Unable to extract channel ID from " ++ url), cache⟩
  | some cid =>
    match (if force_refresh then none else cache.lookup cid) with
    | some cached =>
      if pyTruthy cached.destination_url then
        let req := (cached.destination_url.getD "", cached.request_headers)
        if headStatus = some 200 then ⟨some req, true, false, .ok cached, cache⟩
        else lockedSection cid (delKey cid cache) resolveResult (some req)
      else lockedSection cid (delKey cid cache) resolveResult none
    | none => lockedSection cid cache resolveResult none

/-- A descriptor sitting in the cache in the concrete scenarios below. -/
def staleDesc : CachedData :=
  ⟨some "https://top1new.newkso.ru/top1/771/mono.m3u8",
   [("User-Agent", UA), ("Referer", "https://old.iframe/"), ("Origin", "https://old.iframe")],
   some mediaflow_endpoint⟩

/-- A distinct descriptor that a fresh resolution would produce. -/
def freshDesc : CachedData :=
  ⟨some "https://top2.newkso.ru/top2/cdn/771/mono.m3u8",
   [("User-Agent", UA), ("Referer", "https://new.iframe/"), ("Origin", "https://new.iframe")],
   some mediaflow_endpoint⟩

/-! ## Single-flight per-channel concurrency (lines 399-406)

Cooperative (asyncio) interleaving of two `extract` calls for the same
channel: context switches happen only at await points, so each `stepTask`
is one synchronous block.  `res t` is the descriptor task `t`'s full
page-chain resolution would produce (`none` = it raises), `probeOk`
whether the HEAD validation of a cached descriptor returns 200.
Lock creation (lines 399-400) has no await point, so both tasks share one
lock. -/

inductive TaskPc (D : Type) : Type where
  /-- Has not run its first synchronous block yet. -/
  | init
  /-- Blocked in `async with lock`. -/
  | waiting
  /-- Holds the lock; page-chain resolution in flight. -/
  | resolving
  /-- Returned (`some d`) or raised (`none`). -/
  | done (r : Option D)

structure Sys (D : Type) where
  cache : Option D
  lockHeld : Option (Fin 2)
  pc : Fin 2 → TaskPc D
  walks : List (Fin 2)

def updPc {D : Type} (pc : Fin 2 → TaskPc D) (t : Fin 2) (v : TaskPc D) :
    Fin 2 → TaskPc D :=
  fun i => if i = t then v else pc i

/-- Lock acquisition attempt plus the post-acquisition cache re-check
(lines 402-404); on a miss the page-chain walk starts (lines 405-406). -/
def tryAcquire {D : Type} (st : Sys D) (t : Fin 2) : Sys D :=
  match st.lockHeld with
  | none =>
    match st.cache with
    | some d => { st with pc := updPc st.pc t (.done (some d)) }
    | none =>
      { st with lockHeld := some t, pc := updPc st.pc t .resolving,
                walks := st.walks ++ [t] }
  | some _ => { st with pc := updPc st.pc t .waiting }

/-- Run task `t`'s next synchronous block. -/
def stepTask {D : Type} (probeOk : Bool) (res : Fin 2 → Option D)
    (st : Sys D) (t : Fin 2) : Sys D :=
  match st.pc t with
  | .done _ => st
  | .resolving =>
    match res t with
    | some d =>
      { cache := some d, lockHeld := none,
        pc := updPc st.pc t (.done (some d)), walks := st.walks }
    | none => { st with lockHeld := none, pc := updPc st.pc t (.done none) }
  | .waiting => tryAcquire st t
  | .init =>
    match st.cache with
    | some d =>
      if probeOk then { st with pc := updPc st.pc t (.done (some d)) }
      else tryAcquire { st with cache := none } t
    | none => tryAcquire st t

/-- Run a cooperative schedule (an arbitrary interleaving of block steps). -/
def runSched {D : Type} (probeOk : Bool) (res : Fin 2 → Option D) :
    List (Fin 2) → Sys D → Sys D
  | [], st => st
  | t :: ts, st => runSched probeOk res ts (stepTask probeOk res st t)

/-- Both tasks about to extract the same previously-unseen channel. -/
def sysInit (D : Type) : Sys D := ⟨none, none, fun _ => .init, []⟩

/-- Reachability invariant of the two-task system when every resolution
succeeds (`res t = some (dres t)`) and cached descriptors validate
(`probeOk = true`): at most one page-chain walk ever starts, the cache and
every completed task carry the walker's descriptor, the lock holder is
exactly the resolving task, and a resolution in flight owns the only walk. -/
def singleFlightInv {D : Type} (dres : Fin 2 → D) (st : Sys D) : Prop :=
  (st.walks = [] ∨ ∃ w, st.walks = [w]) ∧
  (∀ d, st.cache = some d → ∃ w, st.walks = [w] ∧ d = dres w) ∧
  (∀ t r, st.pc t = .done r → ∃ w, st.walks = [w] ∧ r = some (dres w)) ∧
  (∀ t, st.lockHeld = some t ↔ st.pc t = .resolving) ∧
  (∀ t, st.pc t = .resolving → st.walks = [t] ∧ st.cache = none) ∧
  (∀ w, st.walks = [w] → (st.pc w = .resolving ∨ st.cache = some (dres w)))

/-! ## Cache persistence (`_load_cache`, lines 79-90; `_save_cache`, lines 106-113)

`_save_cache` is `base64.b64encode(json.dumps(m).encode('utf-8'))`;
`_load_cache` is the inverse chain, with *any* failure (missing file, empty
file, bad base64, bad UTF-8, bad JSON) degrading to the empty map `{}`.
The three stdlib layers are modelled concretely below.

JSON values carry integers (the cache schema stores only strings, string
maps and the endpoint tag; floats do not occur and are out of scope).  The
parser keeps object members in document order, covers exactly the grammar
`json.dumps` emits (plus whitespace), and rejects what it cannot represent
(e.g. lone `\uXXXX` surrogates, which Lean `Char` cannot hold). -/

mutual
inductive JVal : Type where
  | null : JVal
  | bool (b : Bool) : JVal
  | num (n : Int) : JVal
  | str (s : String) : JVal
  | arr (a : JArr) : JVal
  | obj (o : JObj) : JVal
inductive JArr : Type where
  | nil : JArr
  | cons (hd : JVal) (tl : JArr) : JArr
inductive JObj : Type where
  | nil : JObj
  | cons (key : String) (value : JVal) (tl : JObj) : JObj
end

def digitChar (n : Nat) : Char := Char.ofNat (48 + n)

/-- Lowercase hex digit, as CPython's `\uXXXX` escapes emit. -/
def hexDigitChar (n : Nat) : Char :=
  if n < 10 then Char.ofNat (48 + n) else Char.ofNat (87 + n)

def natDigitsAux : Nat → Nat → Chars
  | 0, _ => []
  | fuel + 1, n =>
    if n < 10 then [digitChar n]
    else natDigitsAux fuel (n / 10) ++ [digitChar (n % 10)]

/-- Decimal digits of `n`, most significant first (`str(n)` for `n ≥ 0`). -/
def natDigitsL (n : Nat) : Chars := natDigitsAux (n + 1) n

/-- `str(i)` for a Python int. -/
def intReprL (i : Int) : Chars :=
  if i < 0 then '-' :: natDigitsL i.natAbs else natDigitsL i.natAbs

def hex4 (n : Nat) : Chars :=
  [hexDigitChar (n / 4096 % 16), hexDigitChar (n / 256 % 16),
   hexDigitChar (n / 16 % 16), hexDigitChar (n % 16)]

/-- One character of a JSON string, as `json.dumps` (default
`ensure_ascii=True`) emits it: short escapes, literal printable ASCII,
`\uXXXX` otherwise, with surrogate pairs above the BMP. -/
def escChar (c : Char) : Chars :=
  if c = '"' then ['\\', '"']
  else if c = '\\' then ['\\', '\\']
  else if c = '\n' then ['\\', 'n']
  else if c = '\r' then ['\\', 'r']
  else if c = '\t' then ['\\', 't']
  else if c.toNat = 8 then ['\\', 'b']
  else if c.toNat = 12 then ['\\', 'f']
  else if 0x20 ≤ c.toNat ∧ c.toNat < 0x7f then [c]
  else if c.toNat < 0x10000 then '\\' :: 'u' :: hex4 c.toNat
  else
    ('\\' :: 'u' :: hex4 (0xd800 + (c.toNat - 0x10000) / 0x400)) ++
    ('\\' :: 'u' :: hex4 (0xdc00 + (c.toNat - 0x10000) % 0x400))

def escStr (cs : Chars) : Chars := cs.foldr (fun c acc => escChar c ++ acc) []

mutual
/-- `json.dumps` with the default separators `(', ', ': ')`. -/
def printJVal : JVal → Chars
  | .null => "null".data
  | .bool true => "true".data
  | .bool false => "false".data
  | .num i => intReprL i
  | .str s => '"' :: (escStr s.data ++ ['"'])
  | .arr .nil => "[]".data
  | .arr (.cons v vs) => '[' :: (printJVal v ++ printJArr vs ++ [']'])
  | .obj .nil => ['\x7b', '\x7d']
  | .obj (.cons k v ms) =>
    '\x7b' :: ('"' :: (escStr k.data ++ ['"', ':', ' '] ++ printJVal v ++ printJObj ms ++ ['\x7d']))
def printJArr : JArr → Chars
  | .nil => []
  | .cons v vs => ',' :: (' ' :: (printJVal v ++ printJArr vs))
def printJObj : JObj → Chars
  | .nil => []
  | .cons k v ms =>
    ',' :: (' ' :: ('"' :: (escStr k.data ++ ['"', ':', ' '] ++ printJVal v ++ printJObj ms)))
end

def isWs (c : Char) : Bool := c = ' ' ∨ c = '\t' ∨ c = '\n' ∨ c = '\r'

def skipWs (cs : Chars) : Chars := cs.dropWhile isWs

def hexVal (c : Char) : Option Nat :=
  if '0' ≤ c ∧ c ≤ '9' then some (c.toNat - 48)
  else if 'a' ≤ c ∧ c ≤ 'f' then some (c.toNat - 87)
  else if 'A' ≤ c ∧ c ≤ 'F' then some (c.toNat - 55)
  else none

def hexVal4 (a b c d : Char) : Option Nat :=
  (hexVal a).bind fun x => (hexVal b).bind fun y =>
  (hexVal c).bind fun z => (hexVal d).map fun w =>
    ((x * 16 + y) * 16 + z) * 16 + w

def escapeCode (c : Char) : Option Char :=
  if c = '"' then some '"'
  else if c = '\\' then some '\\'
  else if c = '/' then some '/'
  else if c = 'n' then some '\n'
  else if c = 'r' then some '\r'
  else if c = 't' then some '\t'
  else if c = 'b' then some (Char.ofNat 8)
  else if c = 'f' then some (Char.ofNat 12)
  else none

/-! JSON string body after the opening quote: content up to the closing
quote, and the rest of the input.  The escape handler, the `\uXXXX` handler
and the low-surrogate pairing are split out so that each function matches
only on the list shape of its own argument. -/
mutual
def parseStringBody : Chars → Option (Chars × Chars)
  | [] => none
  | c :: rest =>
    if c = '"' then some ([], rest)
    else if c = '\\' then parseEscape rest
    else if c.toNat < 0x20 then none
    else (parseStringBody rest).map fun pr => (c :: pr.1, pr.2)
def parseEscape : Chars → Option (Chars × Chars)
  | [] => none
  | e :: rest1 =>
    if e = 'u' then parseHexEsc rest1
    else
      match escapeCode e with
      | some c2 => (parseStringBody rest1).map fun pr => (c2 :: pr.1, pr.2)
      | none => none
def parseHexEsc : Chars → Option (Chars × Chars)
  | h1 :: h2 :: h3 :: h4 :: rest2 =>
    (match hexVal4 h1 h2 h3 h4 with
     | none => none
     | some n =>
       if 0xd800 ≤ n ∧ n < 0xdc00 then parseLowSurrogate n rest2
       else if 0xdc00 ≤ n ∧ n < 0xe000 then none
       else (parseStringBody rest2).map fun pr => (Char.ofNat n :: pr.1, pr.2))
  | _ => none
def parseLowSurrogate (n : Nat) : Chars → Option (Chars × Chars)
  | e1 :: e2 :: g1 :: g2 :: g3 :: g4 :: rest3 =>
    if e1 = '\\' ∧ e2 = 'u' then
      match hexVal4 g1 g2 g3 g4 with
      | some m =>
        if 0xdc00 ≤ m ∧ m < 0xe000 then
          (parseStringBody rest3).map fun pr =>
            (Char.ofNat (0x10000 + (n - 0xd800) * 0x400 + (m - 0xdc00)) :: pr.1, pr.2)
        else none
      | none => none
    else none
  | _ => none
end

/-- A high surrogate (the case `parseLowSurrogate` continues) pairs with a
following low-surrogate escape exactly as CPython recombines them. -/

def digitsVal (ds : Chars) : Nat := ds.foldl (fun a c => 10 * a + (c.toNat - 48)) 0

def parseDigits : Chars → Option (Nat × Chars)
  | [] => none
  | c :: cs =>
    if c.isDigit then
      some (digitsVal ((c :: cs).takeWhile (·.isDigit)), (c :: cs).dropWhile (·.isDigit))
    else none

mutual
def parseJVal : Nat → Chars → Option (JVal × Chars)
  | 0, _ => none
  | fuel + 1, cs0 =>
    match skipWs cs0 with
    | [] => none
    | c :: rest =>
      if c = 'n' then
        match rest with
        | 'u' :: 'l' :: 'l' :: rest1 => some (.null, rest1)
        | _ => none
      else if c = 't' then
        match rest with
        | 'r' :: 'u' :: 'e' :: rest1 => some (.bool true, rest1)
        | _ => none
      else if c = 'f' then
        match rest with
        | 'a' :: 'l' :: 's' :: 'e' :: rest1 => some (.bool false, rest1)
        | _ => none
      else if c = '"' then (parseStringBody rest).map fun pr => (.str ⟨pr.1⟩, pr.2)
      else if c = '-' then (parseDigits rest).map fun pr => (.num (-(pr.1 : Int)), pr.2)
      else if c = '[' then
        if (skipWs rest).head? = some ']' then some (.arr .nil, (skipWs rest).tail)
        else (parseJArr fuel (skipWs rest)).map fun pr => (.arr pr.1, pr.2)
      else if c = '\x7b' then
        if (skipWs rest).head? = some '\x7d' then some (.obj .nil, (skipWs rest).tail)
        else (parseJObj fuel (skipWs rest)).map fun pr => (.obj pr.1, pr.2)
      else (parseDigits (c :: rest)).map fun pr => (.num (pr.1 : Int), pr.2)
def parseJArr : Nat → Chars → Option (JArr × Chars)
  | 0, _ => none
  | fuel + 1, cs =>
    (parseJVal fuel cs).bind fun pr =>
    match skipWs pr.2 with
    | ',' :: rest => (parseJArr fuel rest).map fun qr => (.cons pr.1 qr.1, qr.2)
    | ']' :: rest => some (.cons pr.1 .nil, rest)
    | _ => none
def parseJObj : Nat → Chars → Option (JObj × Chars)
  | 0, _ => none
  | fuel + 1, cs =>
    match skipWs cs with
    | '"' :: rest =>
      (parseStringBody rest).bind fun kr =>
      match skipWs kr.2 with
      | ':' :: rest2 =>
        (parseJVal fuel rest2).bind fun vr =>
        match skipWs vr.2 with
        | ',' :: rest3 => (parseJObj fuel rest3).map fun mr => (.cons ⟨kr.1⟩ vr.1 mr.1, mr.2)
        | '\x7d' :: rest3 => some (.cons ⟨kr.1⟩ vr.1 .nil, rest3)
        | _ => none
      | _ => none
    | _ => none
end

/-- `json.loads`: one value plus trailing whitespace. -/
def pyJsonLoads (cs : Chars) : Option JVal :=
  (parseJVal (cs.length + 1) cs).bind fun pr =>
  match skipWs pr.2 with
  | [] => some pr.1
  | _ => none

/-- UTF-8 encoding of one scalar value (`str.encode('utf-8')`). -/
def utf8EncodeChar (c : Char) : List Nat :=
  if c.toNat < 0x80 then [c.toNat]
  else if c.toNat < 0x800 then [0xc0 + c.toNat / 0x40, 0x80 + c.toNat % 0x40]
  else if c.toNat < 0x10000 then
    [0xe0 + c.toNat / 0x1000, 0x80 + c.toNat / 0x40 % 0x40, 0x80 + c.toNat % 0x40]
  else
    [0xf0 + c.toNat / 0x40000, 0x80 + c.toNat / 0x1000 % 0x40,
     0x80 + c.toNat / 0x40 % 0x40, 0x80 + c.toNat % 0x40]

def utf8Encode (cs : Chars) : List Nat :=
  cs.foldr (fun c acc => utf8EncodeChar c ++ acc) []

def isCont (b : Nat) : Bool := 0x80 ≤ b ∧ b < 0xc0

/-- Strict UTF-8 decoding (`bytes.decode('utf-8')`): rejects overlong forms,
surrogates and out-of-range values, as CPython does. -/
def utf8Decode : List Nat → Option Chars
  | [] => some []
  | b :: rest =>
    if b < 0x80 then (utf8Decode rest).map (Char.ofNat b :: ·)
    else if b < 0xc2 then none
    else if b < 0xe0 then
      match rest with
      | b2 :: rest2 =>
        if isCont b2 then
          (utf8Decode rest2).map (Char.ofNat ((b - 0xc0) * 0x40 + (b2 - 0x80)) :: ·)
        else none
      | _ => none
    else if b < 0xf0 then
      match rest with
      | b2 :: b3 :: rest2 =>
        if isCont b2 && isCont b3 then
          let v := (b - 0xe0) * 0x1000 + (b2 - 0x80) * 0x40 + (b3 - 0x80)
          if v < 0x800 ∨ (0xd800 ≤ v ∧ v < 0xe000) then none
          else (utf8Decode rest2).map (Char.ofNat v :: ·)
        else none
      | _ => none
    else if b < 0xf5 then
      match rest with
      | b2 :: b3 :: b4 :: rest2 =>
        if isCont b2 && isCont b3 && isCont b4 then
          let v := (b - 0xf0) * 0x40000 + (b2 - 0x80) * 0x1000 + (b3 - 0x80) * 0x40 + (b4 - 0x80)
          if v < 0x10000 ∨ 0x110000 ≤ v then none
          else (utf8Decode rest2).map (Char.ofNat v :: ·)
        else none
      | _ => none
    else none

def b64Alphabet : Chars :=
  "ABCDEFGHIJKLMNOPQRSTUVWXYZabcdefghijklmnopqrstuvwxyz0123456789+/".data

def b64CharOf (n : Nat) : Char := b64Alphabet.getD n 'A'

def b64IndexOf (c : Char) : Option Nat := b64Alphabet.findIdx? (· = c)

/-- `base64.b64encode` on raw bytes, with `=` padding. -/
def b64Encode : List Nat → Chars
  | [] => []
  | [a] => [b64CharOf (a / 4), b64CharOf (a % 4 * 16), '=', '=']
  | [a, b] =>
    [b64CharOf (a / 4), b64CharOf (a % 4 * 16 + b / 16), b64CharOf (b % 16 * 4), '=']
  | a :: b :: c :: rest =>
    b64CharOf (a / 4) :: b64CharOf (a % 4 * 16 + b / 16) ::
    b64CharOf (b % 16 * 4 + c / 64) :: b64CharOf (c % 64) :: b64Encode rest

def b64DecodeQuads : Chars → Option (List Nat)
  | [] => some []
  | c1 :: c2 :: c3 :: c4 :: rest =>
    (b64IndexOf c1).bind fun i1 =>
    (b64IndexOf c2).bind fun i2 =>
    if c3 = '=' then
      if c4 = '=' ∧ rest = [] then some [i1 * 4 + i2 / 16] else none
    else if c4 = '=' then
      if rest = [] then
        (b64IndexOf c3).map fun i3 => [i1 * 4 + i2 / 16, i2 % 16 * 16 + i3 / 4]
      else none
    else
      (b64IndexOf c3).bind fun i3 =>
      (b64IndexOf c4).bind fun i4 =>
      (b64DecodeQuads rest).map fun bs =>
        (i1 * 4 + i2 / 16) :: ((i2 % 16 * 16 + i3 / 4) :: ((i3 % 4 * 64 + i4) :: bs))
  | _ => none

/-- `base64.b64decode` (default non-validating mode): characters outside the
alphabet and padding are discarded first, then the padded quads are decoded. -/
def pyB64Decode (cs : Chars) : Option (List Nat) :=
  b64DecodeQuads (cs.filter (fun c => (b64IndexOf c).isSome || c = '='))

/-- `_save_cache` (lines 106-113): the text written to the cache file. -/
def save_cache (m : JVal) : String := ⟨b64Encode (utf8Encode (printJVal m))⟩

/-- `_load_cache` (lines 79-90): `none` = the file does not exist; every
failure path degrades to the empty map. -/
def load_cache (file : Option String) : JVal :=
  match file with
  | none => .obj .nil
  | some s =>
    if s.data.isEmpty then .obj .nil
    else
      match pyB64Decode s.data with
      | none => .obj .nil
      | some bytes =>
        match utf8Decode bytes with
        | none => .obj .nil
        | some chars =>
          match pyJsonLoads chars with
          | none => .obj .nil
          | some v => v

/-! Structural size of a JSON value, used as a fuel lower bound for the
parser when proving the print/parse round trip. -/
mutual
def sizeV : JVal → Nat
  | .null => 1
  | .bool _ => 1
  | .num _ => 1
  | .str _ => 1
  | .arr a => 1 + sizeA a
  | .obj o => 1 + sizeO o
def sizeA : JArr → Nat
  | .nil => 0
  | .cons v vs => 1 + sizeV v + sizeA vs
def sizeO : JObj → Nat
  | .nil => 0
  | .cons _ v ms => 1 + sizeV v + sizeO ms
end

/-- The continuation after a printed number never starts with a digit, so
maximal-munch digit parsing stops exactly at the printed boundary. -/
def headNotDigit (l : Chars) : Prop := ∀ c, l.head? = some c → c.isDigit = false

example : save_cache (.obj .nil) = "e30=" := rfl
example : load_cache (some "e30=") = .obj .nil := rfl
example : load_cache none = .obj .nil := rfl
example : load_cache (some "aGVsbG8=") = .obj .nil := rfl
example : load_cache (some "%%%") = .obj .nil := rfl
example : load_cache (some (save_cache (.str "a\"b\\c"))) = .str "a\"b\\c" := rfl
example : load_cache (some (save_cache (.num (-45)))) = .num (-45) := rfl
example :
    load_cache (some (save_cache (.obj (.cons "k" (.str "über λ") .nil)))) =
      .obj (.cons "k" (.str "über λ") .nil) := rfl

example : cleanM3u8Url "top2new" "7" = "https://top1newnew.newkso.ru/top1new/7/mono.m3u8" := by decide
example : cleanM3u8Url "top2" "42" = "https://top1new.newkso.ru/top2/42/mono.m3u8" := by decide
example : cleanM3u8UrlClaimC2 "top2" "42" = "https://top2new.newkso.ru/top2/42/mono.m3u8" := by decide
example : cleanM3u8Url "wiki/extra" "9" = "https://wiki.newkso.ru/wiki/extra/9/mono.m3u8" := by decide

/-! # Claims -/

/-- C9: `invalidate_cache_for_url` derives the channel id with exactly the
same ordered pattern list (first match wins) as `extract`'s
`extract_channel_id`, so the two agree on every URL, and invalidating a URL
deletes exactly the cache entry a subsequent extract of that URL would
consult. -/
theorem C9_invalidate_matches_extract :
    (∀ u : String, invalidateChannelId u = extract_channel_id u) ∧
    (∀ (α : Type) (u : String) (cache : List (String × α)),
      invalidate_cache_for_url u cache =
        match extract_channel_id u with
        | some cid =>
          if ¬cid.isEmpty ∧ hasKey cid cache then delKey cid cache else cache
        | none => cache) :=
  ⟨fun _ => rfl, fun _ _ _ => rfl⟩

/-- C1: with `force_refresh=True` and a cached entry for the channel,
`extract` still returns the pre-existing cached descriptor: the
force-refresh flag skips the validation branch (line 376) but the
double-checked cache lookup inside the lock (lines 403-404) does not
consult it, so no fresh resolution runs and the cache is not repopulated —
contrary to the documented `--force` ("ignore cache") behaviour. -/
theorem C1_force_refresh_returns_stale :
    extractStep true "https://daddylive.sx/watch.php?id=771"
        [("771", staleDesc)] none (.ok freshDesc) =
      ⟨none, false, false, .ok staleDesc, [("771", staleDesc)]⟩ ∧
    staleDesc ≠ freshDesc := by decide

/-- C2 counterexample: the claim says the `top2new → top1new` fix is applied
only when `server_key` is exactly `"top2new"`; but for `server_key = "top2"`
the synthesized URL contains `top2new` (host `top2new.newkso.ru`) and the
substring replacement fires, so the code and the claim's function disagree. -/
theorem C2_counterexample_top2 :
    cleanM3u8Url "top2" "42" ≠ cleanM3u8UrlClaimC2 "top2" "42" ∧
    cleanM3u8Url "top2" "42" = "https://top1new.newkso.ru/top2/42/mono.m3u8" ∧
    cleanM3u8UrlClaimC2 "top2" "42" = "https://top2new.newkso.ru/top2/42/mono.m3u8" := by
  decide

/-- C2 amended: the three synthesis branches are as claimed, but the
`top2new → top1new` fix is a substring replacement over the whole
synthesized URL (every occurrence), so it fires exactly when the URL
contains `top2new` — for `server_key = "top2new"` (host
`top1newnew.newkso.ru`), but also e.g. for `server_key = "top2"` — and
leaves other `*new` keys alone. -/
theorem C2_amended_url_synthesis :
    (∀ ck : String,
      cleanM3u8Url "top1/cdn" ck = "https://top1.newkso.ru/top1/cdn/" ++ ck ++ "/mono.m3u8") ∧
    (∀ sk ck : String, sk ≠ "top1/cdn" → containsSub "/" sk = true →
      cleanM3u8Url sk ck =
        "https://" ++ pySplitFirst '/' sk ++ ".newkso.ru/" ++ sk ++ "/" ++ ck ++ "/mono.m3u8") ∧
    (∀ sk ck : String, sk ≠ "top1/cdn" → containsSub "/" sk = false →
      cleanM3u8Url sk ck =
        pyReplace "top2new" "top1new"
          ("https://" ++ sk ++ "new.newkso.ru/" ++ sk ++ "/" ++ ck ++ "/mono.m3u8")) ∧
    cleanM3u8Url "top1/cdn" "42" = "https://top1.newkso.ru/top1/cdn/42/mono.m3u8" ∧
    cleanM3u8Url "top2new" "42" = "https://top1newnew.newkso.ru/top1new/42/mono.m3u8" ∧
    cleanM3u8Url "top2" "42" = "https://top1new.newkso.ru/top2/42/mono.m3u8" ∧
    cleanM3u8Url "top5new" "42" = "https://top5newnew.newkso.ru/top5new/42/mono.m3u8" := by
  refine ⟨fun ck => rfl, fun sk ck h1 h2 => ?_, fun sk ck h1 h2 => ?_, ?_, ?_, ?_, ?_⟩
  · simp only [cleanM3u8Url, if_neg h1, h2, if_pos]
  · simp [cleanM3u8Url, if_neg h1, h2, pyReplace]
  · decide
  · decide
  · decide
  · decide

theorem C2_amended_witness :
    "a/b" ≠ "top1/cdn" ∧ containsSub "/" "a/b" = true ∧
    cleanM3u8Url "a/b" "9" =
      "https://" ++ pySplitFirst '/' "a/b" ++ ".newkso.ru/" ++ "a/b" ++ "/" ++ "9" ++ "/mono.m3u8" :=
  ⟨by decide, by decide,
   C2_amended_url_synthesis.2.1 "a/b" "9" (by decide) (by decide)⟩

/-- Auxiliary: a field all of whose aliases are absent is never found. -/
theorem findAlias_eq_none (dec : String → Option String)
    (obj : List (String × String)) (names : List String)
    (h : ∀ n ∈ names, obj.lookup n = none) : findAlias dec obj names = none := by
  induction names with
  | nil => rfl
  | cons n rest ih =>
    have hn := h n (by simp)
    simp only [findAlias, hn]
    exact ih (fun m hm => h m (by simp [hm]))

/-- Auxiliary: a blob missing one logical field is rejected, whatever the
other fields hold. -/
theorem buildAuthParams_eq_none (dec : String → Option String)
    (obj : List (String × String)) (tk : String) (names : List String)
    (ml : List (String × List String)) (hmem : (tk, names) ∈ ml)
    (h : ∀ n ∈ names, obj.lookup n = none) :
    buildAuthParams dec obj ml = none := by
  induction ml with
  | nil => simp at hmem
  | cons kv rest ih =>
    rcases List.mem_cons.mp hmem with heq | htail
    · obtain ⟨rfl, rfl⟩ : kv.1 = tk ∧ kv.2 = names := by
        constructor <;> simp [← heq]
      simp only [buildAuthParams, findAlias_eq_none dec obj kv.2 h]
    · cases hfa : findAlias dec obj kv.2 with
      | none => simp only [buildAuthParams, hfa]
      | some v => simp only [buildAuthParams, hfa, ih htail, Option.map_none']

/-- Auxiliary: if some alias in the priority list is present in the blob,
the scan returns a value. -/
theorem findAlias_isSome (dec : String → Option String) (obj : List (String × String)) :
    ∀ names : List String, (∃ n ∈ names, (obj.lookup n).isSome = true) →
      ∃ v, findAlias dec obj names = some v := by
  intro names
  induction names with
  | nil =>
    rintro ⟨n, hn, _⟩
    simp at hn
  | cons name rest ih =>
    rintro ⟨n, hn, hs⟩
    cases hl : obj.lookup name with
    | some v => exact ⟨(dec v).getD v, by simp [findAlias, hl]⟩
    | none =>
      have hn2 : n ∈ rest := by
        rcases List.mem_cons.mp hn with rfl | h
        · rw [hl] at hs; simp at hs
        · exact h
      obtain ⟨v, hv⟩ := ih ⟨n, hn2, hs⟩
      exact ⟨v, by simp [findAlias, hl, hv]⟩

/-- Auxiliary: a blob holding at least one alias of every field of the
mapping list builds a result with exactly the mapping's target keys. -/
theorem buildAuthParams_complete (dec : String → Option String)
    (obj : List (String × String)) :
    ∀ ml : List (String × List String),
      (∀ kv ∈ ml, ∃ n ∈ kv.2, (obj.lookup n).isSome = true) →
      ∃ r, buildAuthParams dec obj ml = some r ∧ r.map Prod.fst = ml.map Prod.fst := by
  intro ml
  induction ml with
  | nil => exact fun _ => ⟨[], rfl, rfl⟩
  | cons kv rest ih =>
    intro h
    obtain ⟨tk, names⟩ := kv
    obtain ⟨v, hv⟩ := findAlias_isSome dec obj names (h (tk, names) (by simp))
    obtain ⟨r, hr, hmap⟩ := ih (fun kv2 h2 => h kv2 (by simp [h2]))
    refine ⟨(tk, v) :: r, ?_, ?_⟩
    · simp only [buildAuthParams, hv, hr]
      rfl
    · simp [hmap]

/-- C3: alias-permutation acceptance.  (i) Every blob that contains, for
each of the five logical fields, at least one alias from that field's
priority list yields a complete `AuthParams` covering exactly the five
logical fields.  (ii) In particular a blob keyed
`{b_host, php, b_ts, random, sign}` and one keyed `{host, script, ts, rnd, sig}`
with the same values yield the same complete `AuthParams`, namely all five
logical fields with each value base64-decoded when possible.  (iii) A blob
missing every alias of any one logical field is rejected outright.
(iv) The first accepted blob across the candidate list wins. -/
theorem C3_auth_alias_extraction :
    (∀ (dec : String → Option String) (obj : List (String × String)),
      (∀ kv ∈ key_mappings, ∃ n ∈ kv.2, (obj.lookup n).isSome = true) →
      ∃ r, candidateResult dec (some obj) = some r ∧
        r.map Prod.fst = ["auth_host", "auth_php", "auth_ts", "auth_rnd", "auth_sig"]) ∧
    (∀ (dec : String → Option String) (h p t r s : String),
      buildAuthParams dec
          [("b_host", h), ("php", p), ("b_ts", t), ("random", r), ("sign", s)]
          key_mappings =
        buildAuthParams dec
          [("host", h), ("script", p), ("ts", t), ("rnd", r), ("sig", s)]
          key_mappings ∧
      buildAuthParams dec
          [("host", h), ("script", p), ("ts", t), ("rnd", r), ("sig", s)]
          key_mappings =
        some [("auth_host", (dec h).getD h), ("auth_php", (dec p).getD p),
              ("auth_ts", (dec t).getD t), ("auth_rnd", (dec r).getD r),
              ("auth_sig", (dec s).getD s)]) ∧
    (∀ (dec : String → Option String) (obj : List (String × String))
        (tk : String) (names : List String),
      (tk, names) ∈ key_mappings → (∀ n ∈ names, obj.lookup n = none) →
      candidateResult dec (some obj) = none) ∧
    (∀ (dec : String → Option String)
        (pre rest : List (Option (List (String × String))))
        (cand : Option (List (String × String))) (res : List (String × String)),
      (∀ x ∈ pre, candidateResult dec x = none) →
      candidateResult dec cand = some res →
      extract_auth_params_dynamic dec (pre ++ cand :: rest) = some res) := by
  refine ⟨fun dec obj hobj => ?_,
          fun dec h p t r s => ⟨rfl, rfl⟩,
          fun dec obj tk names hmem h => ?_,
          fun dec pre rest cand res hpre hcand => ?_⟩
  · obtain ⟨r, hr, hmap⟩ := buildAuthParams_complete dec obj key_mappings hobj
    exact ⟨r, hr, by rw [hmap]; rfl⟩
  · simpa [candidateResult] using buildAuthParams_eq_none dec obj tk names key_mappings hmem h
  · induction pre with
    | nil => simp [extract_auth_params_dynamic, hcand]
    | cons x xs ih =>
      have hx := hpre x (by simp)
      simp only [List.cons_append, extract_auth_params_dynamic, hx]
      exact ih (fun y hy => hpre y (by simp [hy]))

theorem C3_witness :
    (∃ r, candidateResult (fun _ : String => (none : Option String))
        (some [("domain", "H"), ("path", "P"), ("time", "T"),
               ("nonce", "R"), ("signature", "S")]) = some r ∧
        r.map Prod.fst = ["auth_host", "auth_php", "auth_ts", "auth_rnd", "auth_sig"]) ∧
    buildAuthParams (fun _ => none)
        [("b_host", "H"), ("php", "P"), ("b_ts", "T"), ("random", "R"), ("sign", "S")]
        key_mappings =
      buildAuthParams (fun _ => none)
        [("host", "H"), ("script", "P"), ("ts", "T"), ("rnd", "R"), ("sig", "S")]
        key_mappings ∧
    candidateResult (fun _ => none) (some [("host", "H")]) = none ∧
    extract_auth_params_dynamic (fun _ => none)
        ([none] ++ some [("host", "H"), ("script", "P"), ("ts", "T"), ("rnd", "R"), ("sig", "S")] ::
          [some [("b_host", "X")]]) =
      some [("auth_host", "H"), ("auth_php", "P"), ("auth_ts", "T"),
            ("auth_rnd", "R"), ("auth_sig", "S")] :=
  ⟨(C3_auth_alias_extraction.1 (fun _ => none)
     [("domain", "H"), ("path", "P"), ("time", "T"), ("nonce", "R"), ("signature", "S")]
     (by decide)),
   ((C3_auth_alias_extraction.2.1 (fun _ => none) "H" "P" "T" "R" "S").1),
   (C3_auth_alias_extraction.2.2.1 (fun _ => none) [("host", "H")] "auth_ts"
     ["ts", "b_ts", "timestamp", "time"] (by decide) (by decide)),
   (C3_auth_alias_extraction.2.2.2 (fun _ => none) [none] [some [("b_host", "X")]]
     (some [("host", "H"), ("script", "P"), ("ts", "T"), ("rnd", "R"), ("sig", "S")])
     [("auth_host", "H"), ("auth_php", "P"), ("auth_ts", "T"), ("auth_rnd", "R"),
      ("auth_sig", "S")]
     (by intro x hx; simp at hx; subst hx; rfl) (by decide))⟩

/-- Auxiliary: single-step unfolding of the loop, successful attempt. -/
theorem robustGo_step_ok {o : Nat → AttemptOutcome} {d a f : Nat}
    {acc : List (Nat × Nat)} {c : String} (ho : o a = .ok c) :
    robustGo o d a (f + 1) acc = ⟨.returned (some c), acc, a + 1, false⟩ := by
  simp [robustGo, ho]

/-- Auxiliary: single-step unfolding, non-final network error. -/
theorem robustGo_step_net {o : Nat → AttemptOutcome} {d a f : Nat}
    {acc : List (Nat × Nat)} (ho : o a = .netErr) (hf : f ≠ 0) :
    robustGo o d a (f + 1) acc = robustGo o d (a + 1) f (acc ++ [(a, d * 2 ^ a)]) := by
  simp [robustGo, ho, hf]

/-- Auxiliary: single-step unfolding, final-attempt network error. -/
theorem robustGo_step_net_last {o : Nat → AttemptOutcome} {d a : Nat}
    {acc : List (Nat × Nat)} (ho : o a = .netErr) :
    robustGo o d a 1 acc = ⟨.raised "All retries failed", acc, a + 1, true⟩ := by
  simp [robustGo, ho]

/-- Auxiliary: single-step unfolding, non-final non-network exception:
the loop simply continues, with no sleep. -/
theorem robustGo_step_other {o : Nat → AttemptOutcome} {d a f : Nat}
    {acc : List (Nat × Nat)} {m : String} (ho : o a = .otherErr m) (hf : f ≠ 0) :
    robustGo o d a (f + 1) acc = robustGo o d (a + 1) f acc := by
  simp [robustGo, ho, hf]

/-- Auxiliary: single-step unfolding, final-attempt non-network exception. -/
theorem robustGo_step_other_last {o : Nat → AttemptOutcome} {d a : Nat}
    {acc : List (Nat × Nat)} {m : String} (ho : o a = .otherErr m) :
    robustGo o d a 1 acc = ⟨.raised m, acc, a + 1, false⟩ := by
  simp [robustGo, ho]

/-- Auxiliary: the sleep accumulator only prepends to the final sleep list;
result, attempt count and teardown are independent of it. -/
theorem robustGo_acc (o : Nat → AttemptOutcome) (d : Nat) :
    ∀ (f a : Nat) (acc : List (Nat × Nat)),
      (robustGo o d a f acc).result = (robustGo o d a f []).result ∧
      (robustGo o d a f acc).attemptsMade = (robustGo o d a f []).attemptsMade ∧
      (robustGo o d a f acc).sessionTornDown = (robustGo o d a f []).sessionTornDown ∧
      (robustGo o d a f acc).sleeps = acc ++ (robustGo o d a f []).sleeps := by
  intro f
  induction f with
  | zero => intro a acc; simp [robustGo]
  | succ f ih =>
    intro a acc
    cases ho : o a with
    | ok c => simp [robustGo, ho]
    | netErr =>
      by_cases hf : f = 0
      · subst hf; simp [robustGo, ho]
      · simp only [robustGo, ho, if_neg hf, List.nil_append]
        obtain ⟨h1, h2, h3, h4⟩ := ih (a + 1) (acc ++ [(a, d * 2 ^ a)])
        obtain ⟨g1, g2, g3, g4⟩ := ih (a + 1) [(a, d * 2 ^ a)]
        exact ⟨h1.trans g1.symm, h2.trans g2.symm, h3.trans g3.symm,
               by rw [h4, g4]; simp⟩
    | otherErr m =>
      by_cases hf : f = 0
      · subst hf; simp [robustGo, ho]
      · simp only [robustGo, ho, if_neg hf]
        exact ih (a + 1) acc

/-- Auxiliary: the loop returns the first successful attempt's body, however
the earlier attempts failed (network or not). -/
theorem robustGo_success (o : Nat → AttemptOutcome) (d : Nat) :
    ∀ (f a : Nat) (acc : List (Nat × Nat)) (k : Nat) (c : String),
      k < f → o (a + k) = .ok c → (∀ j < k, ∀ c2, o (a + j) ≠ .ok c2) →
      (robustGo o d a f acc).result = .returned (some c) := by
  intro f
  induction f with
  | zero => intro a acc k c hk; omega
  | succ f ih =>
    intro a acc k c hk hok hpre
    cases k with
    | zero =>
      simp only [Nat.add_zero] at hok
      simp [robustGo, hok]
    | succ j =>
      have hf : f ≠ 0 := by omega
      have hj : j < f := by omega
      have hok' : o (a + 1 + j) = .ok c := by
        have : a + 1 + j = a + (j + 1) := by omega
        rw [this]; exact hok
      have hpre' : ∀ i < j, ∀ c2, o (a + 1 + i) ≠ .ok c2 := by
        intro i hi c2
        have : a + 1 + i = a + (i + 1) := by omega
        rw [this]; exact hpre (i + 1) (by omega) c2
      cases ho : o a with
      | ok c2 => exact absurd ho (hpre 0 (by omega) c2)
      | netErr =>
        simp only [robustGo, ho, if_neg hf]
        exact ih (a + 1) _ j c hj hok' hpre'
      | otherErr m =>
        simp only [robustGo, ho, if_neg hf]
        exact ih (a + 1) _ j c hj hok' hpre'

/-- Auxiliary: when every attempt raises, the final attempt's exception is
the one that surfaces. -/
theorem robustGo_failure (o : Nat → AttemptOutcome) (d : Nat) :
    ∀ (f a : Nat) (acc : List (Nat × Nat)),
      1 ≤ f → (∀ k < f, ∀ c, o (a + k) ≠ .ok c) →
      (robustGo o d a f acc).result = .raised (errMsgOf (o (a + f - 1))) := by
  intro f
  induction f with
  | zero => intro a acc h; omega
  | succ f ih =>
    intro a acc _ hno
    cases hf : f with
    | zero =>
      subst hf
      cases ho : o a with
      | ok c => exact absurd ho (hno 0 (by omega) c)
      | netErr => simp [robustGo, ho, errMsgOf]
      | otherErr m => simp [robustGo, ho, errMsgOf]
    | succ f2 =>
      subst hf
      have hno' : ∀ k < f2 + 1, ∀ c, o (a + 1 + k) ≠ .ok c := by
        intro k hk c
        have : a + 1 + k = a + (k + 1) := by omega
        rw [this]; exact hno (k + 1) (by omega) c
      have hidx : a + 1 + (f2 + 1) - 1 = a + (f2 + 1 + 1) - 1 := by omega
      cases ho : o a with
      | ok c => exact absurd ho (hno 0 (by omega) c)
      | netErr =>
        rw [robustGo_step_net ho (Nat.succ_ne_zero f2),
            ih (a + 1) _ (by omega) hno', hidx]
      | otherErr m =>
        rw [robustGo_step_other ho (Nat.succ_ne_zero f2),
            ih (a + 1) _ (by omega) hno', hidx]

/-- Auxiliary: every recorded sleep belongs to a network-error attempt and
uses the exponential backoff delay. -/
theorem robustGo_sleeps_net (o : Nat → AttemptOutcome) (d : Nat) :
    ∀ (f a : Nat), ∀ x ∈ (robustGo o d a f []).sleeps,
      o x.1 = .netErr ∧ x.2 = d * 2 ^ x.1 := by
  intro f
  induction f with
  | zero => intro a x hx; simp [robustGo] at hx
  | succ f ih =>
    intro a x hx
    cases ho : o a with
    | ok c => simp [robustGo, ho] at hx
    | netErr =>
      by_cases hf : f = 0
      · subst hf; simp [robustGo, ho] at hx
      · rw [robustGo_step_net ho hf, List.nil_append,
            (robustGo_acc o d f (a + 1) [(a, d * 2 ^ a)]).2.2.2] at hx
        rcases List.mem_append.mp hx with hx | hx
        · simp only [List.mem_singleton] at hx
          subst hx
          exact ⟨ho, rfl⟩
        · exact ih (a + 1) x hx
    | otherErr m =>
      by_cases hf : f = 0
      · subst hf; simp [robustGo, ho] at hx
      · rw [robustGo_step_other ho hf] at hx
        exact ih (a + 1) x hx

/-- C5 counterexample: a non-network exception (a content-decoding failure)
on the first attempt is *not* fatal there — the loop simply moves to the
next attempt, which succeeds and returns the body. -/
theorem C5_counterexample_decode_retried :
    decompressThenOk 0 = .otherErr "Decompression failed: zstd" ∧
    makeRobustRequest decompressThenOk 3 2 = ⟨.returned (some "body"), [], 2, false⟩ := by
  decide

/-- C5 amended: in the transport loop every exception — network or not,
including decoding failures — is retried up to the attempt limit; only on
the final attempt does it surface as a fatal `ExtractorError` (with the
final attempt's message).  The two kinds differ only in that network
errors back off exponentially before the next attempt while non-network
exceptions are retried immediately: every recorded sleep belongs to a
network-error attempt. -/
theorem C5_amended_retry_policy :
    ∀ (outcomes : Nat → AttemptOutcome) (retries initialDelay : Nat),
      1 ≤ retries →
      ((∀ (k : Nat) (c : String), k < retries → outcomes k = .ok c →
          (∀ j < k, ∀ c2, outcomes j ≠ .ok c2) →
          (makeRobustRequest outcomes retries initialDelay).result =
            .returned (some c)) ∧
       ((∀ k < retries, ∀ c, outcomes k ≠ .ok c) →
         (makeRobustRequest outcomes retries initialDelay).result =
           .raised (errMsgOf (outcomes (retries - 1)))) ∧
       (∀ x ∈ (makeRobustRequest outcomes retries initialDelay).sleeps,
         outcomes x.1 = .netErr ∧ x.2 = initialDelay * 2 ^ x.1)) := by
  intro outcomes retries initialDelay hr
  refine ⟨fun k c hk hok hpre => ?_, fun hno => ?_, fun x hx => ?_⟩
  · exact robustGo_success outcomes initialDelay retries 0 [] k c hk
      (by simpa using hok) (by simpa using hpre)
  · have := robustGo_failure outcomes initialDelay retries 0 [] hr
      (by simpa using hno)
    simpa [makeRobustRequest] using this
  · exact robustGo_sleeps_net outcomes initialDelay retries 0 x hx

theorem C5_amended_witness :
    (makeRobustRequest (fun _ => AttemptOutcome.netErr) 3 2).result =
      .raised (errMsgOf ((fun _ => AttemptOutcome.netErr) 2)) :=
  (C5_amended_retry_policy (fun _ => .netErr) 3 2 (by decide)).2.1
    (by intro k hk c h; cases h)

/-- Auxiliary: lookup misses when the key is absent. -/
theorem lookup_eq_none_of_not_key {α : Type} (cid : String) (l : List (String × α))
    (h : cid ∉ l.map Prod.fst) : l.lookup cid = none := by
  induction l with
  | nil => rfl
  | cons kv rest ih =>
    simp only [List.map_cons, List.mem_cons] at h
    push_neg at h
    have hne : (cid == kv.1) = false := beq_eq_false_iff_ne.mpr h.1
    simp only [List.lookup, hne]
    exact ih h.2

/-- Auxiliary: deleting a key from a duplicate-free dict removes it. -/
theorem lookup_delKey_self {α : Type} (cid : String) (l : List (String × α))
    (hnd : (l.map Prod.fst).Nodup) : (delKey cid l).lookup cid = none := by
  induction l with
  | nil => rfl
  | cons kv rest ih =>
    rw [List.map_cons, List.nodup_cons] at hnd
    by_cases hk : kv.1 = cid
    · rw [delKey, if_pos hk]
      exact lookup_eq_none_of_not_key cid rest (hk ▸ hnd.1)
    · have hne : (cid == kv.1) = false := beq_eq_false_iff_ne.mpr (Ne.symm hk)
      rw [delKey, if_neg hk]
      simp only [List.lookup, hne]
      exact ih hnd.2

/-- C4: on a cache hit without force-refresh (entry with a non-empty stored
manifest URL), a HEAD probe is issued against the stored URL with the
stored headers; a 200 returns the cached descriptor unconditionally after a
best-effort warm re-fetch of the input URL (whose outcome is absent from
the model: it is swallowed); any other status or a request failure deletes
the entry and falls through to a full resolution whose outcome becomes the
call's outcome. -/
theorem C4_cache_hit_validation :
    ∀ (url cid : String) (cache : List (String × CachedData)) (cached : CachedData)
      (headStatus : Option Nat) (rr : ExtractResult),
      extract_channel_id url = some cid →
      cache.lookup cid = some cached →
      (cache.map Prod.fst).Nodup →
      pyTruthy cached.destination_url = true →
      ((extractStep false url cache headStatus rr).probed =
          some (cached.destination_url.getD "", cached.request_headers)) ∧
      (headStatus = some 200 →
        extractStep false url cache headStatus rr =
          ⟨some (cached.destination_url.getD "", cached.request_headers),
           true, false, .ok cached, cache⟩) ∧
      (headStatus ≠ some 200 →
        (extractStep false url cache headStatus rr).resolved = true ∧
        (extractStep false url cache headStatus rr).result =
          (match rr with
           | .ok d => .ok d
           | .error e => .error ("DLHD extraction failed: " ++ e)) ∧
        (extractStep false url cache headStatus rr).cacheAfter =
          (match rr with
           | .ok d => setKey cid d (delKey cid cache)
           | .error _ => delKey cid cache)) := by
  intro url cid cache cached headStatus rr hcid hlook hnd htr
  have hdel : (delKey cid cache).lookup cid = none := lookup_delKey_self cid cache hnd
  by_cases h200 : headStatus = some 200
  · subst h200
    simp [extractStep, hcid, hlook, htr]
  · have hstep :
        extractStep false url cache headStatus rr =
          lockedSection cid (delKey cid cache) rr
            (some (cached.destination_url.getD "", cached.request_headers)) := by
      simp [extractStep, hcid, hlook, htr, h200]
    rw [hstep]
    cases rr with
    | ok d => simp [lockedSection, hdel, h200]
    | error e => simp [lockedSection, hdel, h200]

theorem C4_witness :
    extract_channel_id "https://daddylive.sx/watch.php?id=771" = some "771" ∧
    pyTruthy staleDesc.destination_url = true ∧
    extractStep false "https://daddylive.sx/watch.php?id=771" [("771", staleDesc)]
        (some 200) (.ok freshDesc) =
      ⟨some (staleDesc.destination_url.getD "", staleDesc.request_headers),
       true, false, .ok staleDesc, [("771", staleDesc)]⟩ :=
  ⟨by decide, by decide,
   (C4_cache_hit_validation "https://daddylive.sx/watch.php?id=771" "771"
     [("771", staleDesc)] staleDesc (some 200) (.ok freshDesc)
     (by decide) (by decide) (by simp) (by decide)).2.1 rfl⟩

/-- Auxiliary: a key that is absent is not found. -/
theorem hasKey_eq_false_of_not_key {α : Type} (cid : String) (l : List (String × α))
    (h : cid ∉ l.map Prod.fst) : hasKey cid l = false := by
  induction l with
  | nil => rfl
  | cons kv rest ih =>
    simp only [List.map_cons, List.mem_cons] at h
    push_neg at h
    simp only [hasKey, List.any_cons, Bool.or_eq_false_iff]
    exact ⟨by simp [Ne.symm h.1], by simpa [hasKey] using ih h.2⟩

/-- Auxiliary: after deleting a key from a duplicate-free dict, the key is
no longer present. -/
theorem hasKey_delKey_self {α : Type} (cid : String) (l : List (String × α))
    (hnd : (l.map Prod.fst).Nodup) : hasKey cid (delKey cid l) = false := by
  induction l with
  | nil => rfl
  | cons kv rest ih =>
    rw [List.map_cons, List.nodup_cons] at hnd
    by_cases hk : kv.1 = cid
    · rw [delKey, if_pos hk]
      exact hasKey_eq_false_of_not_key cid rest (hk ▸ hnd.1)
    · rw [delKey, if_neg hk]
      simp only [hasKey, List.any_cons, Bool.or_eq_false_iff]
      exact ⟨by simp [hk], by simpa [hasKey] using ih hnd.2⟩

/-- C6: on an auth-request failure with a cached entry for the channel, the
entry is deleted and the extraction is re-run exactly once from the top;
without a cached entry (in particular after the one retry) the failure is
fatal.  At most two auth requests ever run in one `extract` call. -/
theorem C6_auth_retry_once :
    ∀ (D : Type) (authOk : Nat → Bool) (d : D) (cid : String)
      (cache : List (String × D)),
      (cache.map Prod.fst).Nodup →
      ((getStreamAuth authOk d cid cache 0).authAttempts ≤ 2 ∧
       (authOk 0 = true →
         getStreamAuth authOk d cid cache 0 = ⟨.ok d, 1, setKey cid d cache⟩) ∧
       (authOk 0 = false → hasKey cid cache = true → authOk 1 = true →
         getStreamAuth authOk d cid cache 0 =
           ⟨.ok d, 2, setKey cid d (delKey cid cache)⟩) ∧
       (authOk 0 = false → hasKey cid cache = true → authOk 1 = false →
         getStreamAuth authOk d cid cache 0 =
           ⟨.error "Auth failed", 2, delKey cid cache⟩) ∧
       (authOk 0 = false → hasKey cid cache = false →
         getStreamAuth authOk d cid cache 0 = ⟨.error "Auth failed", 1, cache⟩)) := by
  intro D authOk d cid cache hnd
  have hdel := hasKey_delKey_self cid cache hnd
  by_cases h0 : authOk 0 = true
  · have h : getStreamAuth authOk d cid cache 0 = ⟨.ok d, 1, setKey cid d cache⟩ := by
      rw [getStreamAuth, if_pos h0]
    exact ⟨by rw [h]; exact Nat.le_succ 1, fun _ => h,
           fun hc _ _ => absurd h0 (by simp [hc]),
           fun hc _ _ => absurd h0 (by simp [hc]),
           fun hc _ => absurd h0 (by simp [hc])⟩
  · by_cases hin : hasKey cid cache = true
    · have h2 : getStreamAuth authOk d cid cache 0 =
          getStreamAuth authOk d cid (delKey cid cache) 1 := by
        rw [getStreamAuth, if_neg h0, dif_pos hin]
      by_cases h1 : authOk 1 = true
      · have h3 : getStreamAuth authOk d cid (delKey cid cache) 1 =
            ⟨.ok d, 2, setKey cid d (delKey cid cache)⟩ := by
          rw [getStreamAuth, if_pos h1]
        exact ⟨by rw [h2, h3], fun hc => absurd hc h0,
               fun _ _ _ => h2.trans h3,
               fun _ _ hc => absurd h1 (by simp [hc]),
               fun _ hc => absurd hin (by simp [hc])⟩
      · have h3 : getStreamAuth authOk d cid (delKey cid cache) 1 =
            ⟨.error "Auth failed", 2, delKey cid cache⟩ := by
          rw [getStreamAuth, if_neg h1, dif_neg (by simp [hdel])]
        exact ⟨by rw [h2, h3], fun hc => absurd hc h0,
               fun _ _ hc => absurd hc h1,
               fun _ _ _ => h2.trans h3,
               fun _ hc => absurd hin (by simp [hc])⟩
    · have h : getStreamAuth authOk d cid cache 0 = ⟨.error "Auth failed", 1, cache⟩ := by
        rw [getStreamAuth, if_neg h0, dif_neg hin]
      exact ⟨by rw [h]; exact Nat.le_succ 1, fun hc => absurd hc h0,
             fun _ hc _ => absurd hc hin,
             fun _ hc _ => absurd hc hin, fun _ _ => h⟩

theorem C6_witness :
    getStreamAuth (fun _ => false) (7 : Nat) "9" [("9", 3)] 0 =
      ⟨.error "Auth failed", 2, delKey "9" [("9", (3 : Nat))]⟩ :=
  (C6_auth_retry_once Nat (fun _ => false) 7 "9" [("9", 3)] (by simp)).2.2.2.1
    rfl (by decide) rfl

theorem updPc_self {D : Type} (pc : Fin 2 → TaskPc D) (t : Fin 2) (v : TaskPc D) :
    updPc pc t v t = v := by simp [updPc]

theorem updPc_other {D : Type} (pc : Fin 2 → TaskPc D) (t t' : Fin 2) (v : TaskPc D)
    (h : t' ≠ t) : updPc pc t v t' = pc t' := by simp [updPc, h]

/-- Auxiliary: the lock-acquire-and-recheck block preserves the invariant. -/
theorem singleFlightInv_tryAcquire {D : Type} (dres : Fin 2 → D) (st : Sys D)
    (t : Fin 2) (h : singleFlightInv dres st)
    (hpc : st.pc t = .waiting ∨ st.pc t = .init) :
    singleFlightInv dres (tryAcquire st t) := by
  obtain ⟨h1, h2, h3, h4, h5, h6⟩ := h
  have hpcne_res : st.pc t ≠ .resolving := by rcases hpc with h | h <;> simp [h]
  cases hlk : st.lockHeld with
  | some u =>
    simp only [singleFlightInv, tryAcquire, hlk]
    refine ⟨h1, h2, ?_, ?_, ?_, ?_⟩
    · intro t' r hr
      by_cases ht : t' = t
      · rw [ht, updPc_self] at hr; cases hr
      · rw [updPc_other _ _ _ _ ht] at hr; exact h3 t' r hr
    · intro t'
      constructor
      · intro he
        have hu : st.pc u = .resolving := (h4 u).mp hlk
        have hut : u ≠ t := fun he2 => hpcne_res (he2 ▸ hu)
        have heq : u = t' := by injection he
        rw [← heq, updPc_other _ _ _ _ hut]
        exact hu
      · intro hres
        by_cases ht : t' = t
        · rw [ht, updPc_self] at hres; cases hres
        · rw [updPc_other _ _ _ _ ht] at hres
          have hx := (h4 t').mpr hres
          rw [hlk] at hx
          exact hx
    · intro t' hres
      by_cases ht : t' = t
      · rw [ht, updPc_self] at hres; cases hres
      · rw [updPc_other _ _ _ _ ht] at hres; exact h5 t' hres
    · intro w hw
      rcases h6 w hw with hres | hcw
      · have hwt : w ≠ t := fun he2 => hpcne_res (he2 ▸ hres)
        left; rw [updPc_other _ _ _ _ hwt]; exact hres
      · right; exact hcw
  | none =>
    cases hc : st.cache with
    | some d =>
      simp only [singleFlightInv, tryAcquire, hlk, hc]
      obtain ⟨w, hw, hdw⟩ := h2 d hc
      refine ⟨h1, ?_, ?_, ?_, ?_, ?_⟩
      · intro d1 hd
        obtain rfl : d = d1 := by injection hd
        exact ⟨w, hw, hdw⟩
      · intro t' r hr
        by_cases ht : t' = t
        · rw [ht, updPc_self] at hr
          injection hr with hr2
          exact ⟨w, hw, by rw [← hr2, hdw]⟩
        · rw [updPc_other _ _ _ _ ht] at hr; exact h3 t' r hr
      · intro t'
        constructor
        · intro he; cases he
        · intro hres
          by_cases ht : t' = t
          · rw [ht, updPc_self] at hres; cases hres
          · rw [updPc_other _ _ _ _ ht] at hres
            have hx := (h4 t').mpr hres
            rw [hlk] at hx; cases hx
      · intro t' hres
        by_cases ht : t' = t
        · rw [ht, updPc_self] at hres; cases hres
        · rw [updPc_other _ _ _ _ ht] at hres
          have hx := (h4 t').mpr hres
          rw [hlk] at hx; cases hx
      · intro w2 hw2
        rcases h6 w2 hw2 with hres | hcw
        · have hx := (h4 w2).mpr hres
          rw [hlk] at hx; cases hx
        · right; rw [hc] at hcw; exact hcw
    | none =>
      have hwnil : st.walks = [] := by
        rcases h1 with hn | ⟨w, hw⟩
        · exact hn
        · rcases h6 w hw with hres | hcw
          · have hx := (h4 w).mpr hres; rw [hlk] at hx; cases hx
          · rw [hc] at hcw; cases hcw
      simp only [singleFlightInv, tryAcquire, hlk, hc, hwnil, List.nil_append]
      refine ⟨Or.inr ⟨t, rfl⟩, ?_, ?_, ?_, ?_, ?_⟩
      · intro d hd; cases hd
      · intro t' r hr
        by_cases ht : t' = t
        · rw [ht, updPc_self] at hr; cases hr
        · rw [updPc_other _ _ _ _ ht] at hr
          obtain ⟨w, hw, _⟩ := h3 t' r hr
          rw [hwnil] at hw; cases hw
      · intro t'
        constructor
        · intro he
          have heq : t = t' := by injection he
          rw [← heq, updPc_self]
        · intro hres
          by_cases ht : t' = t
          · rw [ht]
          · rw [updPc_other _ _ _ _ ht] at hres
            have hx := (h4 t').mpr hres
            rw [hlk] at hx; cases hx
      · intro t' hres
        by_cases ht : t' = t
        · exact ⟨by rw [ht], by trivial⟩
        · rw [updPc_other _ _ _ _ ht] at hres
          have hx := (h4 t').mpr hres
          rw [hlk] at hx; cases hx
      · intro w hw
        have heq : t = w := by injection hw
        left; rw [← heq, updPc_self]

/-- Auxiliary: each cooperative block preserves the invariant. -/
theorem singleFlightInv_step {D : Type} (dres : Fin 2 → D) (st : Sys D) (t : Fin 2)
    (h : singleFlightInv dres st) :
    singleFlightInv dres (stepTask true (fun i => some (dres i)) st t) := by
  obtain ⟨h1, h2, h3, h4, h5, h6⟩ := h
  cases hpc : st.pc t with
  | done r =>
    simp only [stepTask, hpc]
    exact ⟨h1, h2, h3, h4, h5, h6⟩
  | waiting =>
    simp only [stepTask, hpc]
    exact singleFlightInv_tryAcquire dres st t ⟨h1, h2, h3, h4, h5, h6⟩ (Or.inl hpc)
  | resolving =>
    obtain ⟨hw, hcache⟩ := h5 t hpc
    have hlkt : st.lockHeld = some t := (h4 t).mpr hpc
    simp only [singleFlightInv, stepTask, hpc]
    refine ⟨Or.inr ⟨t, hw⟩, ?_, ?_, ?_, ?_, ?_⟩
    · intro d hd
      have heq : dres t = d := by injection hd
      exact ⟨t, hw, heq.symm⟩
    · intro t' r hr
      by_cases ht : t' = t
      · rw [ht, updPc_self] at hr
        injection hr with hr2
        exact ⟨t, hw, hr2.symm⟩
      · rw [updPc_other _ _ _ _ ht] at hr; exact h3 t' r hr
    · intro t'
      constructor
      · intro he; cases he
      · intro hres
        by_cases ht : t' = t
        · rw [ht, updPc_self] at hres; cases hres
        · rw [updPc_other _ _ _ _ ht] at hres
          have hx := (h4 t').mpr hres
          rw [hlkt] at hx
          have heq : t = t' := by injection hx
          exact absurd heq.symm ht
    · intro t' hres
      by_cases ht : t' = t
      · rw [ht, updPc_self] at hres; cases hres
      · rw [updPc_other _ _ _ _ ht] at hres
        have hx := (h4 t').mpr hres
        rw [hlkt] at hx
        have heq : t = t' := by injection hx
        exact absurd heq.symm ht
    · intro w hww
      right
      have heq : t = w := by rw [hw] at hww; injection hww
      rw [← heq]
  | init =>
    cases hc : st.cache with
    | some d =>
      simp only [singleFlightInv, stepTask, hpc, hc, if_pos]
      obtain ⟨w, hw, hdw⟩ := h2 d hc
      refine ⟨h1, ?_, ?_, ?_, ?_, ?_⟩
      · intro d1 hd
        obtain rfl : d = d1 := by injection hd
        exact ⟨w, hw, hdw⟩
      · intro t' r hr
        by_cases ht : t' = t
        · rw [ht, updPc_self] at hr
          injection hr with hr2
          exact ⟨w, hw, by rw [← hr2, hdw]⟩
        · rw [updPc_other _ _ _ _ ht] at hr; exact h3 t' r hr
      · intro t'
        constructor
        · intro he
          have hres := (h4 t').mp he
          have ht : t' ≠ t := fun he2 => by rw [he2, hpc] at hres; cases hres
          rw [updPc_other _ _ _ _ ht]
          exact hres
        · intro hres
          by_cases ht : t' = t
          · rw [ht, updPc_self] at hres; cases hres
          · rw [updPc_other _ _ _ _ ht] at hres
            exact (h4 t').mpr hres
      · intro t' hres
        by_cases ht : t' = t
        · rw [ht, updPc_self] at hres; cases hres
        · rw [updPc_other _ _ _ _ ht] at hres
          have hx := (h5 t' hres).2
          rw [hc] at hx; cases hx
      · intro w2 hw2
        rcases h6 w2 hw2 with hres | hcw
        · have ht : w2 ≠ t := fun he2 => by rw [he2, hpc] at hres; cases hres
          left; rw [updPc_other _ _ _ _ ht]; exact hres
        · right; rw [hc] at hcw; exact hcw
    | none =>
      simp only [stepTask, hpc, hc]
      exact singleFlightInv_tryAcquire dres st t ⟨h1, h2, h3, h4, h5, h6⟩ (Or.inr hpc)

/-- Auxiliary: the invariant holds along any schedule. -/
theorem singleFlightInv_run {D : Type} (dres : Fin 2 → D) :
    ∀ (sched : List (Fin 2)) (st : Sys D), singleFlightInv dres st →
      singleFlightInv dres (runSched true (fun i => some (dres i)) sched st) := by
  intro sched
  induction sched with
  | nil => intro st h; exact h
  | cons t ts ih =>
    intro st h
    exact ih _ (singleFlightInv_step dres st t h)

/-- Auxiliary: the initial state satisfies the invariant. -/
theorem singleFlightInv_init {D : Type} (dres : Fin 2 → D) :
    singleFlightInv dres (sysInit D) := by
  refine ⟨Or.inl rfl, ?_, ?_, ?_, ?_, ?_⟩
  · intro d hd; cases hd
  · intro t r hr; cases hr
  · intro t
    constructor
    · intro he; cases he
    · intro hres; cases hres
  · intro t hres; cases hres
  · intro w hw; cases hw

/-- C8: for two concurrent `extract` calls on the same previously-unseen
channel (cooperative interleaving, any schedule), when resolutions succeed
and cached descriptors validate, at most one task ever performs the full
page-chain walk, and every completed call returns exactly the walker's
descriptor — the follower blocks on the per-channel lock, re-checks the
cache, and reuses the leader's result. -/
theorem C8_single_flight :
    ∀ (D : Type) (dres : Fin 2 → D) (sched : List (Fin 2)),
      (runSched true (fun i => some (dres i)) sched (sysInit D)).walks.length ≤ 1 ∧
      (∀ t r,
        (runSched true (fun i => some (dres i)) sched (sysInit D)).pc t = .done r →
        ∃ w, (runSched true (fun i => some (dres i)) sched (sysInit D)).walks = [w] ∧
          r = some (dres w)) := by
  intro D dres sched
  obtain ⟨h1, _, h3, _, _, _⟩ :=
    singleFlightInv_run dres sched (sysInit D) (singleFlightInv_init dres)
  refine ⟨?_, h3⟩
  rcases h1 with h | ⟨w, hw⟩
  · rw [h]; exact Nat.zero_le 1
  · rw [hw]; exact Nat.le_refl 1

theorem C8_witness :
    (runSched true (fun i => some ((fun _ => (5 : Nat)) i)) [0, 1, 0, 1]
        (sysInit Nat)).pc 1 = .done (some 5) ∧
    ∃ w, (runSched true (fun i => some ((fun _ => (5 : Nat)) i)) [0, 1, 0, 1]
        (sysInit Nat)).walks = [w] ∧ (some 5 : Option Nat) = some ((fun _ => (5 : Nat)) w) :=
  ⟨rfl, (C8_single_flight Nat (fun _ => 5) [0, 1, 0, 1]).2 1 (some 5) rfl⟩

/-- Auxiliary: replacing `top2new` by `top1new` preserves the length and
changes a position only from `'2'` to `'1'` (the two patterns differ in one
character), characterised pointwise. -/
theorem pyReplaceAux_top2_spec :
    ∀ (fuel : Nat) (s : Chars), s.length ≤ fuel →
      (pyReplaceAux "top2new".data "top1new".data fuel s).length = s.length ∧
      ∀ i : Nat, (pyReplaceAux "top2new".data "top1new".data fuel s)[i]? = s[i]? ∨
        (s[i]? = some '2' ∧
          (pyReplaceAux "top2new".data "top1new".data fuel s)[i]? = some '1') := by
  intro fuel
  induction fuel with
  | zero =>
    intro s hs
    have hnil : s = [] := List.eq_nil_of_length_eq_zero (Nat.le_zero.mp hs)
    subst hnil
    exact ⟨rfl, fun i => Or.inl rfl⟩
  | succ fuel ih =>
    intro s hs
    cases s with
    | nil => exact ⟨rfl, fun i => Or.inl rfl⟩
    | cons c cs =>
      by_cases hpre : List.isPrefixOf "top2new".data (c :: cs)
      · have hP : "top2new".data <+: (c :: cs) := List.isPrefixOf_iff_prefix.mp hpre
        obtain ⟨tail, htail⟩ := hP
        have hdrop6 : cs.drop 6 = tail := by
          have h7 := List.drop_left "top2new".data tail
          rw [htail] at h7
          exact h7
        have hlen7 : (c :: cs).length = 7 + tail.length := by
          rw [← htail, List.length_append]
          rfl
        obtain ⟨ihlen, ihget⟩ := ih tail (by
          have hlen7c := hlen7
          simp only [List.length_cons] at hs hlen7c
          omega)
        have e1 : pyReplaceAux "top2new".data "top1new".data (fuel + 1) (c :: cs) =
            "top1new".data ++ pyReplaceAux "top2new".data "top1new".data fuel tail := by
          rw [← hdrop6]
          simp only [pyReplaceAux, if_pos hpre]
          rfl
        refine ⟨?_, ?_⟩
        · rw [e1, List.length_append, ihlen, hlen7]
          rfl
        · intro i
          by_cases hi : i < 7
          · have hi1 : i < ("top1new".data).length := hi
            have hi2 : i < ("top2new".data).length := hi
            have hL : ("top1new".data ++
                pyReplaceAux "top2new".data "top1new".data fuel tail)[i]? =
                ("top1new".data)[i]? := by
              rw [List.getElem?_append, if_pos hi1]
            have hR : (c :: cs)[i]? = ("top2new".data)[i]? := by
              rw [← htail, List.getElem?_append, if_pos hi2]
            rw [e1, hL, hR]
            have hd : ∀ i, i < 7 →
                (("top1new".data)[i]? = ("top2new".data)[i]? ∨
                  (("top2new".data)[i]? = some '2' ∧
                    ("top1new".data)[i]? = some '1')) := by decide
            exact hd i hi
          · push_neg at hi
            have hi1 : ("top1new".data).length ≤ i := hi
            have hi2 : ("top2new".data).length ≤ i := hi
            have hL : ("top1new".data ++
                pyReplaceAux "top2new".data "top1new".data fuel tail)[i]? =
                (pyReplaceAux "top2new".data "top1new".data fuel tail)[i - 7]? := by
              rw [List.getElem?_append_right hi1]
              rfl
            have hR : (c :: cs)[i]? = tail[i - 7]? := by
              rw [← htail, List.getElem?_append_right hi2]
              rfl
            rw [e1, hL, hR]
            exact ihget (i - 7)
      · have e1 : pyReplaceAux "top2new".data "top1new".data (fuel + 1) (c :: cs) =
            c :: pyReplaceAux "top2new".data "top1new".data fuel cs := by
          simp only [pyReplaceAux, if_neg hpre]
        obtain ⟨ihlen, ihget⟩ := ih cs (by simp at hs; omega)
        refine ⟨by rw [e1]; simp [ihlen], ?_⟩
        intro i
        cases i with
        | zero => left; rw [e1, List.getElem?_cons_zero, List.getElem?_cons_zero]
        | succ j =>
          rw [e1]
          simp only [List.getElem?_cons_succ]
          exact ihget j

/-- Auxiliary: pointwise characterisation of the `top2new → top1new` fix. -/
theorem pyReplaceL_top2_spec (s : Chars) :
    (pyReplaceL "top2new".data "top1new".data s).length = s.length ∧
    ∀ i : Nat, (pyReplaceL "top2new".data "top1new".data s)[i]? = s[i]? ∨
      (s[i]? = some '2' ∧
        (pyReplaceL "top2new".data "top1new".data s)[i]? = some '1') :=
  pyReplaceAux_top2_spec s.length s (Nat.le_refl _)

/-- Auxiliary: positions holding anything but `'2'` are untouched. -/
theorem pyReplaceL_top2_get_eq (s : Chars) (i : Nat) (c : Char) (hc : c ≠ '2')
    (h : s[i]? = some c) :
    (pyReplaceL "top2new".data "top1new".data s)[i]? = some c := by
  rcases (pyReplaceL_top2_spec s).2 i with he | ⟨h2, _⟩
  · rw [he, h]
  · rw [h] at h2
    injection h2 with h2
    exact absurd h2 hc

/-- Auxiliary: the fix never creates a `'/'`. -/
theorem pyReplaceL_top2_ne_slash (s : Chars) (i : Nat) (h : s[i]? ≠ some '/') :
    (pyReplaceL "top2new".data "top1new".data s)[i]? ≠ some '/' := by
  rcases (pyReplaceL_top2_spec s).2 i with he | ⟨_, h1⟩
  · rw [he]; exact h
  · rw [h1]
    intro hx
    injection hx with hx
    exact absurd hx (by decide)

/-- Auxiliary: `sub in s` is exactly infix containment. -/
theorem containsSubL_iff (n : Chars) : ∀ l : Chars, containsSubL n l = true ↔ n <:+: l := by
  intro l
  induction l with
  | nil => simp [containsSubL, List.isPrefixOf_iff_prefix]
  | cons c cs ih =>
    rw [containsSubL, Bool.or_eq_true, List.isPrefixOf_iff_prefix, ih,
        List.infix_cons_iff]

/-- Auxiliary: a sub-segment pinned down pointwise. -/
theorem take_drop_eq_of_getElem? (l t : Chars) (k : Nat)
    (hpt : ∀ j, j < t.length → l[k + j]? = t[j]?) :
    (l.drop k).take t.length = t := by
  apply List.ext_getElem?
  intro j
  by_cases hj : j < t.length
  · rw [List.getElem?_take, if_pos hj, List.getElem?_drop]
    exact hpt j hj
  · push_neg at hj
    rw [List.getElem?_take, if_neg (by omega), List.getElem?_eq_none hj]

/-- Auxiliary: a suffix pinned down pointwise. -/
theorem suffix_of_getElem? (l t : Chars) (hlen : t.length ≤ l.length)
    (hpt : ∀ j, j < t.length → l[l.length - t.length + j]? = t[j]?) : t <:+ l := by
  rw [List.suffix_iff_eq_drop]
  apply List.ext_getElem?
  intro j
  by_cases hj : j < t.length
  · rw [List.getElem?_drop]
    exact (hpt j hj).symm
  · push_neg at hj
    rw [List.getElem?_eq_none hj, List.getElem?_eq_none]
    simp only [List.length_drop]
    omega

/-- Auxiliary: suffixes survive prepending. -/
theorem suffix_append_left {l b : Chars} (a : Chars) (h : l <:+ b) : l <:+ a ++ b := by
  obtain ⟨t, ht⟩ := h
  exact ⟨a ++ t, by rw [List.append_assoc, ht]⟩

/-- Auxiliary: a well-formed delivery URL contains `newkso.ru`. -/
theorem goodUrl_newkso_mem {u : String} (h : goodUrl u) :
    "newkso.ru".data <:+: u.data := by
  obtain ⟨hst, rest, he, _, hsuf⟩ := h
  obtain ⟨pre, hpre⟩ := hsuf
  refine ⟨"https://".data ++ pre, '/' :: rest, ?_⟩
  rw [he, ← hpre]
  simp [List.append_assoc]

/-- Auxiliary: hence the `"newkso.ru" in clean_m3u8_url` test succeeds. -/
theorem containsSub_newkso {u : String} (h : goodUrl u) :
    containsSub "newkso.ru" u = true :=
  (containsSubL_iff _ _).mpr (goodUrl_newkso_mem h)

/-- Auxiliary: the `top1/cdn` branch produces a well-formed delivery URL
ending in `/mono.m3u8`. -/
theorem goodUrl_branch1 (ck : String) :
    goodUrl ("https://top1.newkso.ru/top1/cdn/" ++ ck ++ "/mono.m3u8") ∧
    "/mono.m3u8".data <:+ ("https://top1.newkso.ru/top1/cdn/" ++ ck ++ "/mono.m3u8").data := by
  constructor
  · refine ⟨"top1.newkso.ru".data,
            "top1/cdn/".data ++ ck.data ++ "/mono.m3u8".data, ?_, by decide, by decide⟩
    rw [String.data_append, String.data_append]
    have hsplit : "https://top1.newkso.ru/top1/cdn/".data =
        "https://".data ++ "top1.newkso.ru".data ++ '/' :: "top1/cdn/".data := by decide
    rw [hsplit]
    simp [List.append_assoc]
  · rw [String.data_append]
    exact List.suffix_append _ _

/-- Auxiliary: the slash branch produces a well-formed delivery URL
ending in `/mono.m3u8`. -/
theorem goodUrl_branch2 (sk ck : String) :
    goodUrl ("https://" ++ pySplitFirst '/' sk ++ ".newkso.ru/" ++ sk ++ "/" ++ ck ++ "/mono.m3u8") ∧
    "/mono.m3u8".data <:+
      ("https://" ++ pySplitFirst '/' sk ++ ".newkso.ru/" ++ sk ++ "/" ++ ck ++ "/mono.m3u8").data := by
  constructor
  · refine ⟨(pySplitFirst '/' sk).data ++ ".newkso.ru".data,
            sk.data ++ '/' :: (ck.data ++ "/mono.m3u8".data), ?_, ?_, ?_⟩
    · simp only [String.data_append]
      have hsplit : ['.', 'n', 'e', 'w', 'k', 's', 'o', '.', 'r', 'u', '/'] =
          ['.', 'n', 'e', 'w', 'k', 's', 'o', '.', 'r', 'u'] ++ ['/'] := by decide
      rw [hsplit]
      simp [List.append_assoc]
    · intro hmem
      rcases List.mem_append.mp hmem with hm | hm
      · have hp := List.mem_takeWhile_imp (p := fun c => c ≠ '/') (by
          simpa [pySplitFirst] using hm)
        simp at hp
      · exact absurd hm (by decide)
    · exact suffix_append_left _ (by decide)
  · rw [String.data_append]
    exact List.suffix_append _ _

/-- Auxiliary: the generic branch builds
`https://{sk}new.newkso.ru/{sk}/{ck}/mono.m3u8` and then replaces `top2new`
by `top1new` throughout; since the two patterns differ only at `'2'` vs
`'1'`, the scheme, the slash structure, the `newkso.ru` host suffix and the
`/mono.m3u8` tail all survive the replacement. -/
theorem goodUrl_replace_aux (skL ckL s : Chars) (hsk : '/' ∉ skL)
    (hs : s = "https://".data ++ ((skL ++ "new.newkso.ru".data) ++
      '/' :: (skL ++ '/' :: (ckL ++ "/mono.m3u8".data)))) :
    (∃ hst rest : Chars,
      pyReplaceL "top2new".data "top1new".data s =
        "https://".data ++ hst ++ '/' :: rest ∧
      '/' ∉ hst ∧ "newkso.ru".data <:+ hst) ∧
    "/mono.m3u8".data <:+ pyReplaceL "top2new".data "top1new".data s := by
  set rl := pyReplaceL "top2new".data "top1new".data s with hrl
  have rspec := pyReplaceL_top2_spec s
  have rlen : rl.length = s.length := rspec.1
  have hA : ∀ j, j < 8 → s[j]? = ("https://".data)[j]? := by
    intro j hj
    rw [hs, List.getElem?_append, if_pos (show j < ("https://".data).length from hj)]
  have hMj : ∀ j, j < skL.length + 13 →
      s[8 + j]? = (skL ++ "new.newkso.ru".data)[j]? := by
    intro j hj
    rw [hs, List.getElem?_append_right (show ("https://".data).length ≤ 8 + j by
      simp)]
    have h0 : 8 + j - ("https://".data).length = j := by simp
    rw [h0, List.getElem?_append, if_pos (show j < (skL ++ "new.newkso.ru".data).length by
      simp only [List.length_append]
      simp
      omega)]
  have hSep : s[8 + (skL.length + 13)]? = some '/' := by
    rw [hs, List.getElem?_append_right (show ("https://".data).length ≤ 8 + (skL.length + 13) by
      simp)]
    have h0 : 8 + (skL.length + 13) - ("https://".data).length = skL.length + 13 := by simp
    rw [h0, List.getElem?_append_right (show (skL ++ "new.newkso.ru".data).length ≤ skL.length + 13 by
      simp [List.length_append])]
    have h1 : skL.length + 13 - (skL ++ "new.newkso.ru".data).length = 0 := by
      simp [List.length_append]
    rw [h1, List.getElem?_cons_zero]
  have hs2 : s = ("https://".data ++ ((skL ++ "new.newkso.ru".data) ++
      '/' :: (skL ++ '/' :: ckL))) ++ "/mono.m3u8".data := by
    rw [hs]; simp [List.append_assoc]
  have hsufS : "/mono.m3u8".data <:+ s := by
    rw [hs2]; exact List.suffix_append _ _
  have hsmono : ∀ j, j < ("/mono.m3u8".data).length →
      s[s.length - ("/mono.m3u8".data).length + j]? = ("/mono.m3u8".data)[j]? := by
    have hdropS := List.suffix_iff_eq_drop.mp hsufS
    intro j hj
    rw [← List.getElem?_drop, ← hdropS]
  have hA' : ∀ j, j < 8 → rl[j]? = ("https://".data)[j]? := by
    intro j hj
    obtain ⟨c, hc1, hc2⟩ :=
      (by decide : ∀ j, j < 8 → ∃ c, ("https://".data)[j]? = some c ∧ c ≠ '2') j hj
    rw [hc1]
    exact pyReplaceL_top2_get_eq s j c hc2 (by rw [hA j hj, hc1])
  have e1 : rl.take 8 = "https://".data := by
    have h := take_drop_eq_of_getElem? rl "https://".data 0 (fun j hj => by
      rw [Nat.zero_add]; exact hA' j hj)
    rw [List.drop_zero] at h
    exact h
  have hslen : 8 + (skL.length + 13) < s.length := by
    rw [hs]; simp [List.length_append]; omega
  have hsep_lt : 8 + (skL.length + 13) < rl.length := by rw [rlen]; exact hslen
  have hSep' : rl[8 + (skL.length + 13)]? = some '/' :=
    pyReplaceL_top2_get_eq s _ '/' (by decide) hSep
  obtain ⟨hhx, hv⟩ := List.getElem?_eq_some.mp hSep'
  constructor
  · refine ⟨(rl.drop 8).take (skL.length + 13),
            rl.drop (8 + (skL.length + 13) + 1), ?_, ?_, ?_⟩
    · calc rl = rl.take 8 ++ rl.drop 8 := (List.take_append_drop 8 rl).symm
        _ = rl.take 8 ++ ((rl.drop 8).take (skL.length + 13) ++
              (rl.drop 8).drop (skL.length + 13)) := by
            conv_rhs => rw [List.take_append_drop]
        _ = rl.take 8 ++ ((rl.drop 8).take (skL.length + 13) ++
              rl.drop (8 + (skL.length + 13))) := by rw [List.drop_drop]
        _ = rl.take 8 ++ ((rl.drop 8).take (skL.length + 13) ++
              ('/' :: rl.drop (8 + (skL.length + 13) + 1))) := by
            rw [List.drop_eq_getElem_cons hsep_lt, hv]
        _ = "https://".data ++ ((rl.drop 8).take (skL.length + 13) ++
              ('/' :: rl.drop (8 + (skL.length + 13) + 1))) := by rw [e1]
    · intro hmem
      obtain ⟨j, hj⟩ := List.mem_iff_getElem?.mp hmem
      have hjlt : j < skL.length + 13 := by
        by_contra hge
        push_neg at hge
        rw [List.getElem?_take, if_neg (by omega)] at hj
        cases hj
      rw [List.getElem?_take, if_pos hjlt, List.getElem?_drop] at hj
      apply pyReplaceL_top2_ne_slash s (8 + j) ?_ hj
      rw [hMj j hjlt]
      intro hbad
      have hmem2 : '/' ∈ skL ++ "new.newkso.ru".data :=
        List.mem_iff_getElem?.mpr ⟨j, hbad⟩
      rcases List.mem_append.mp hmem2 with hm | hm
      · exact hsk hm
      · exact absurd hm (by decide)
    · have hbig : skL.length + 13 ≤ rl.length - 8 := by
        rw [rlen, hs]; simp [List.length_append]
      have hstlen : ((rl.drop 8).take (skL.length + 13)).length = skL.length + 13 := by
        rw [List.length_take, List.length_drop]
        omega
      apply suffix_of_getElem? _ "newkso.ru".data (by rw [hstlen]; simp)
      intro j hj
      have h9 : ("newkso.ru".data).length = 9 := rfl
      have hidx : ((rl.drop 8).take (skL.length + 13)).length -
          ("newkso.ru".data).length + j = skL.length + 4 + j := by
        rw [hstlen, h9]; omega
      rw [hidx, List.getElem?_take, if_pos (by omega : skL.length + 4 + j < skL.length + 13),
          List.getElem?_drop]
      obtain ⟨c, hc1, hc2⟩ :=
        (by decide : ∀ j, j < 9 → ∃ c, ("newkso.ru".data)[j]? = some c ∧ c ≠ '2') j
          (by rw [h9] at hj; exact hj)
      rw [hc1]
      apply pyReplaceL_top2_get_eq s _ c hc2
      rw [hMj (skL.length + 4 + j) (by rw [h9] at hj; omega)]
      rw [List.getElem?_append_right (by omega : skL.length ≤ skL.length + 4 + j)]
      have h2 : skL.length + 4 + j - skL.length = 4 + j := by omega
      rw [h2,
          (by decide : ∀ j, j < 9 → ("new.newkso.ru".data)[4 + j]? = ("newkso.ru".data)[j]?) j
            (by rw [h9] at hj; exact hj),
          hc1]
  · apply suffix_of_getElem? rl "/mono.m3u8".data (by
      rw [rlen, hs]; simp [List.length_append]; omega)
    intro j hj
    obtain ⟨c, hc1, hc2⟩ :=
      (by decide : ∀ j, j < 10 → ∃ c, ("/mono.m3u8".data)[j]? = some c ∧ c ≠ '2') j hj
    rw [hc1]
    apply pyReplaceL_top2_get_eq s _ c hc2
    rw [rlen]
    rw [hsmono j hj, hc1]

/-- Auxiliary: the generic (no-slash) branch produces a well-formed delivery
URL ending in `/mono.m3u8`. -/
theorem goodUrl_branch3 (sk ck : String) (hsk : containsSub "/" sk = false) :
    goodUrl (pyReplace "top2new" "top1new"
      ("https://" ++ sk ++ "new.newkso.ru/" ++ sk ++ "/" ++ ck ++ "/mono.m3u8")) ∧
    "/mono.m3u8".data <:+
      (pyReplace "top2new" "top1new"
        ("https://" ++ sk ++ "new.newkso.ru/" ++ sk ++ "/" ++ ck ++ "/mono.m3u8")).data := by
  have hskmem : '/' ∉ sk.data := by
    intro hm
    obtain ⟨pre, suf, hps⟩ := List.append_of_mem hm
    have : containsSubL "/".data sk.data = true := by
      rw [containsSubL_iff]
      exact ⟨pre, suf, by rw [hps]; simp⟩
    rw [containsSub] at hsk
    rw [this] at hsk
    cases hsk
  have hshape : ("https://" ++ sk ++ "new.newkso.ru/" ++ sk ++ "/" ++ ck ++ "/mono.m3u8").data =
      "https://".data ++ ((sk.data ++ "new.newkso.ru".data) ++
        '/' :: (sk.data ++ '/' :: (ck.data ++ "/mono.m3u8".data))) := by
    simp only [String.data_append]
    have hsplit : ['n', 'e', 'w', '.', 'n', 'e', 'w', 'k', 's', 'o', '.', 'r', 'u', '/'] =
        ['n', 'e', 'w', '.', 'n', 'e', 'w', 'k', 's', 'o', '.', 'r', 'u'] ++ ['/'] := by decide
    rw [hsplit]
    simp [List.append_assoc]
  exact goodUrl_replace_aux sk.data ck.data _ hskmem hshape

/-- Auxiliary: every synthesized manifest URL is a well-formed delivery URL
ending in `/mono.m3u8`, whatever the server and channel keys are. -/
theorem cleanM3u8Url_good (sk ck : String) :
    goodUrl (cleanM3u8Url sk ck) ∧ "/mono.m3u8".data <:+ (cleanM3u8Url sk ck).data := by
  by_cases h1 : sk = "top1/cdn"
  · rw [cleanM3u8Url, if_pos h1]
    exact goodUrl_branch1 ck
  · by_cases h2 : containsSub "/" sk = true
    · simp only [cleanM3u8Url, if_neg h1, h2, if_pos]
      exact goodUrl_branch2 sk ck
    · have h2' : containsSub "/" sk = false := by
        cases hb : containsSub "/" sk
        · rfl
        · exact absurd hb h2
      simp only [cleanM3u8Url, if_neg h1, h2', Bool.false_eq_true, if_false, pyReplace]
      exact goodUrl_branch3 sk ck h2'

/-- C10: every `StreamDescriptor` a successful resolution produces carries
the constant endpoint tag `hls_manifest_proxy`; its `destination_url` is an
`https` URL whose host (the slash-free segment after the scheme) ends in
`newkso.ru` and whose path ends in `/mono.m3u8`; consequently the
`"newkso.ru" in clean_m3u8_url` test always succeeds, the non-delivery
headers branch is unreachable, and the request headers always carry the
iframe URL as `Referer` and the iframe origin as `Origin`. -/
theorem C10_descriptor_invariant :
    ∀ (server_key channel_key iframe_url : String),
      (streamResult server_key channel_key iframe_url).mediaflow_endpoint =
        "hls_manifest_proxy" ∧
      goodUrl (streamResult server_key channel_key iframe_url).destination_url ∧
      "/mono.m3u8".data <:+
        (streamResult server_key channel_key iframe_url).destination_url.data ∧
      containsSub "newkso.ru"
        (streamResult server_key channel_key iframe_url).destination_url = true ∧
      (streamResult server_key channel_key iframe_url).request_headers =
        [("User-Agent", UA), ("Referer", iframe_url),
         ("Origin", "https://" ++ pyNetloc iframe_url)] := by
  intro sk ck ifr
  obtain ⟨hgood, hsuf⟩ := cleanM3u8Url_good sk ck
  have hcs : containsSub "newkso.ru" (cleanM3u8Url sk ck) = true := containsSub_newkso hgood
  refine ⟨rfl, hgood, hsuf, hcs, ?_⟩
  simp only [streamResult, hcs, if_pos]

/-! ## C7: cache persistence round trip.

Layer 1: base64.  `b64encode` output decodes back to the original bytes,
and (because every emitted character is alphabet or padding) the
non-validating filter of `b64decode` is the identity on it. -/

theorem b64IndexOf_b64CharOf : ∀ n : Nat, n < 64 → b64IndexOf (b64CharOf n) = some n := by
  decide

theorem b64CharOf_ne_pad : ∀ n : Nat, n < 64 → b64CharOf n ≠ '=' := by
  decide

theorem b64CharOf_pred (n : Nat) :
    ((b64IndexOf (b64CharOf n)).isSome || (b64CharOf n = '=')) = true := by
  by_cases h : n < 64
  · rw [b64IndexOf_b64CharOf n h]; rfl
  · have hA : b64CharOf n = 'A' := by
      rw [b64CharOf, List.getD_eq_default]
      have hlen : b64Alphabet.length = 64 := rfl
      omega
    rw [hA]; decide

theorem b64Encode_mem : ∀ (bs : List Nat) (c : Char), c ∈ b64Encode bs →
    ((b64IndexOf c).isSome || (c = '=')) = true
  | [], c, hc => by simp [b64Encode] at hc
  | [a], c, hc => by
    simp only [b64Encode, List.mem_cons, List.not_mem_nil, or_false] at hc
    rcases hc with rfl | rfl | rfl | rfl
    · exact b64CharOf_pred _
    · exact b64CharOf_pred _
    · decide
    · decide
  | [a, b], c, hc => by
    simp only [b64Encode, List.mem_cons, List.not_mem_nil, or_false] at hc
    rcases hc with rfl | rfl | rfl | rfl
    · exact b64CharOf_pred _
    · exact b64CharOf_pred _
    · exact b64CharOf_pred _
    · decide
  | a :: b :: d :: rest, c, hc => by
    simp only [b64Encode, List.mem_cons] at hc
    rcases hc with rfl | rfl | rfl | rfl | hm
    · exact b64CharOf_pred _
    · exact b64CharOf_pred _
    · exact b64CharOf_pred _
    · exact b64CharOf_pred _
    · exact b64Encode_mem rest c hm

theorem b64DecodeQuads_b64Encode :
    ∀ (fuel : Nat) (bs : List Nat), bs.length ≤ fuel → (∀ b ∈ bs, b < 256) →
      b64DecodeQuads (b64Encode bs) = some bs := by
  intro fuel
  induction fuel with
  | zero =>
    intro bs hlen _
    have hbs : bs = [] := List.eq_nil_of_length_eq_zero (Nat.le_zero.mp hlen)
    subst hbs; rfl
  | succ n ih =>
    intro bs hlen hb
    cases bs with
    | nil => rfl
    | cons a bs1 =>
      cases bs1 with
      | nil =>
        have ha : a < 256 := hb a (by simp)
        have h1 := b64IndexOf_b64CharOf (a / 4) (by omega)
        have h2 := b64IndexOf_b64CharOf (a % 4 * 16) (by omega)
        simp [b64Encode, b64DecodeQuads, h1, h2]
        omega
      | cons b bs2 =>
        cases bs2 with
        | nil =>
          have ha : a < 256 := hb a (by simp)
          have hbb : b < 256 := hb b (by simp)
          have h1 := b64IndexOf_b64CharOf (a / 4) (by omega)
          have h2 := b64IndexOf_b64CharOf (a % 4 * 16 + b / 16) (by omega)
          have h3 := b64IndexOf_b64CharOf (b % 16 * 4) (by omega)
          have hne3 := b64CharOf_ne_pad (b % 16 * 4) (by omega)
          simp [b64Encode, b64DecodeQuads, h1, h2, h3, hne3]
          omega
        | cons d rest =>
          have ha : a < 256 := hb a (by simp)
          have hbb : b < 256 := hb b (by simp)
          have hd : d < 256 := hb d (by simp)
          have hlen2 : rest.length ≤ n := by
            simp only [List.length_cons] at hlen; omega
          have hrec := ih rest hlen2 (fun x hx => hb x (by simp [hx]))
          have h1 := b64IndexOf_b64CharOf (a / 4) (by omega)
          have h2 := b64IndexOf_b64CharOf (a % 4 * 16 + b / 16) (by omega)
          have h3 := b64IndexOf_b64CharOf (b % 16 * 4 + d / 64) (by omega)
          have h4 := b64IndexOf_b64CharOf (d % 64) (by omega)
          have hne3 := b64CharOf_ne_pad (b % 16 * 4 + d / 64) (by omega)
          have hne4 := b64CharOf_ne_pad (d % 64) (by omega)
          simp [b64Encode, b64DecodeQuads, h1, h2, h3, h4, hne3, hne4, hrec]
          omega

theorem pyB64Decode_b64Encode (bs : List Nat) (h : ∀ b ∈ bs, b < 256) :
    pyB64Decode (b64Encode bs) = some bs := by
  rw [pyB64Decode, List.filter_eq_self.mpr (fun c hc => b64Encode_mem bs c hc)]
  exact b64DecodeQuads_b64Encode bs.length bs le_rfl h

/-! Layer 2: UTF-8.  Every encoded byte is below 256 (so the base64 layer
applies), and strict decoding inverts encoding: the scalar-value ranges of
`Char` rule out exactly the forms the decoder rejects. -/

theorem char_toNat_valid (c : Char) :
    c.toNat < 0xd800 ∨ (0xdfff < c.toNat ∧ c.toNat < 0x110000) := by
  rcases c.valid with h | ⟨h1, h2⟩
  · exact Or.inl h
  · exact Or.inr ⟨h1, h2⟩

theorem utf8EncodeChar_lt (c : Char) : ∀ b ∈ utf8EncodeChar c, b < 256 := by
  intro b hb
  have hv : c.toNat < 0x110000 := by
    rcases char_toNat_valid c with h | ⟨_, h2⟩
    · omega
    · omega
  rw [utf8EncodeChar] at hb
  split_ifs at hb <;> simp at hb <;> omega

theorem utf8Encode_lt (cs : Chars) : ∀ b ∈ utf8Encode cs, b < 256 := by
  induction cs with
  | nil => intro b hb; simp [utf8Encode] at hb
  | cons c cs ih =>
    intro b hb
    have hsplit : utf8Encode (c :: cs) = utf8EncodeChar c ++ utf8Encode cs := rfl
    rw [hsplit, List.mem_append] at hb
    rcases hb with h | h
    · exact utf8EncodeChar_lt c b h
    · exact ih b h

theorem utf8Decode_cons (b : Nat) (rest : List Nat) :
    utf8Decode (b :: rest) =
      if b < 0x80 then (utf8Decode rest).map (Char.ofNat b :: ·)
      else if b < 0xc2 then none
      else if b < 0xe0 then
        (match rest with
         | b2 :: rest2 =>
           if isCont b2 then
             (utf8Decode rest2).map (Char.ofNat ((b - 0xc0) * 0x40 + (b2 - 0x80)) :: ·)
           else none
         | _ => none)
      else if b < 0xf0 then
        (match rest with
         | b2 :: b3 :: rest2 =>
           if isCont b2 && isCont b3 then
             if (b - 0xe0) * 0x1000 + (b2 - 0x80) * 0x40 + (b3 - 0x80) < 0x800 ∨
                (0xd800 ≤ (b - 0xe0) * 0x1000 + (b2 - 0x80) * 0x40 + (b3 - 0x80) ∧
                 (b - 0xe0) * 0x1000 + (b2 - 0x80) * 0x40 + (b3 - 0x80) < 0xe000) then none
             else (utf8Decode rest2).map
               (Char.ofNat ((b - 0xe0) * 0x1000 + (b2 - 0x80) * 0x40 + (b3 - 0x80)) :: ·)
           else none
         | _ => none)
      else if b < 0xf5 then
        (match rest with
         | b2 :: b3 :: b4 :: rest2 =>
           if isCont b2 && isCont b3 && isCont b4 then
             if (b - 0xf0) * 0x40000 + (b2 - 0x80) * 0x1000 + (b3 - 0x80) * 0x40 + (b4 - 0x80) < 0x10000 ∨
                0x110000 ≤ (b - 0xf0) * 0x40000 + (b2 - 0x80) * 0x1000 + (b3 - 0x80) * 0x40 + (b4 - 0x80) then none
             else (utf8Decode rest2).map
               (Char.ofNat ((b - 0xf0) * 0x40000 + (b2 - 0x80) * 0x1000 + (b3 - 0x80) * 0x40 + (b4 - 0x80)) :: ·)
           else none
         | _ => none)
      else none := by
  cases rest with
  | nil => rfl
  | cons b2 r1 =>
    cases r1 with
    | nil => rfl
    | cons b3 r2 =>
      cases r2 with
      | nil => rfl
      | cons b4 r3 => rfl

theorem utf8Decode_step2 (b b2 : Nat) (rest : List Nat)
    (h1 : ¬ b < 0x80) (h2 : ¬ b < 0xc2) (h3 : b < 0xe0) (hc : isCont b2 = true) :
    utf8Decode (b :: b2 :: rest) =
      (utf8Decode rest).map (Char.ofNat ((b - 0xc0) * 0x40 + (b2 - 0x80)) :: ·) := by
  rw [utf8Decode_cons, if_neg h1, if_neg h2, if_pos h3]
  simp only [hc, if_true]

theorem utf8Decode_step3 (b b2 b3 : Nat) (rest : List Nat)
    (h1 : ¬ b < 0x80) (h2 : ¬ b < 0xc2) (h3 : ¬ b < 0xe0) (h4 : b < 0xf0)
    (hc2 : isCont b2 = true) (hc3 : isCont b3 = true)
    (hrange : ¬ ((b - 0xe0) * 0x1000 + (b2 - 0x80) * 0x40 + (b3 - 0x80) < 0x800 ∨
      (0xd800 ≤ (b - 0xe0) * 0x1000 + (b2 - 0x80) * 0x40 + (b3 - 0x80) ∧
        (b - 0xe0) * 0x1000 + (b2 - 0x80) * 0x40 + (b3 - 0x80) < 0xe000))) :
    utf8Decode (b :: b2 :: b3 :: rest) =
      (utf8Decode rest).map
        (Char.ofNat ((b - 0xe0) * 0x1000 + (b2 - 0x80) * 0x40 + (b3 - 0x80)) :: ·) := by
  rw [utf8Decode_cons, if_neg h1, if_neg h2, if_neg h3, if_pos h4]
  simp only [hc2, hc3, Bool.and_self, if_true]
  rw [if_neg hrange]

theorem utf8Decode_step4 (b b2 b3 b4 : Nat) (rest : List Nat)
    (h1 : ¬ b < 0x80) (h2 : ¬ b < 0xc2) (h3 : ¬ b < 0xe0) (h4 : ¬ b < 0xf0)
    (h5 : b < 0xf5)
    (hc2 : isCont b2 = true) (hc3 : isCont b3 = true) (hc4 : isCont b4 = true)
    (hrange : ¬ ((b - 0xf0) * 0x40000 + (b2 - 0x80) * 0x1000 + (b3 - 0x80) * 0x40 + (b4 - 0x80) < 0x10000 ∨
      0x110000 ≤ (b - 0xf0) * 0x40000 + (b2 - 0x80) * 0x1000 + (b3 - 0x80) * 0x40 + (b4 - 0x80))) :
    utf8Decode (b :: b2 :: b3 :: b4 :: rest) =
      (utf8Decode rest).map
        (Char.ofNat ((b - 0xf0) * 0x40000 + (b2 - 0x80) * 0x1000 + (b3 - 0x80) * 0x40 + (b4 - 0x80)) :: ·) := by
  rw [utf8Decode_cons, if_neg h1, if_neg h2, if_neg h3, if_neg h4, if_pos h5]
  simp only [hc2, hc3, hc4, Bool.and_self, if_true]
  rw [if_neg hrange]

theorem utf8Decode_utf8Encode : ∀ cs : Chars, utf8Decode (utf8Encode cs) = some cs := by
  intro cs
  induction cs with
  | nil => rfl
  | cons c cs ih =>
    have hval := char_toNat_valid c
    show utf8Decode (utf8EncodeChar c ++ utf8Encode cs) = some (c :: cs)
    by_cases h1 : c.toNat < 0x80
    · have he : utf8EncodeChar c = [c.toNat] := by rw [utf8EncodeChar, if_pos h1]
      rw [he]
      show utf8Decode (c.toNat :: utf8Encode cs) = some (c :: cs)
      rw [utf8Decode_cons, if_pos h1, ih, Char.ofNat_toNat]
      rfl
    · by_cases h2 : c.toNat < 0x800
      · have he : utf8EncodeChar c = [0xc0 + c.toNat / 0x40, 0x80 + c.toNat % 0x40] := by
          rw [utf8EncodeChar, if_neg h1, if_pos h2]
        rw [he]
        show utf8Decode ((0xc0 + c.toNat / 0x40) :: (0x80 + c.toNat % 0x40) :: utf8Encode cs)
          = some (c :: cs)
        rw [utf8Decode_step2 _ _ _ (by omega) (by omega) (by omega)
          (by simp [isCont]; omega)]
        rw [show (0xc0 + c.toNat / 0x40 - 0xc0) * 0x40 + (0x80 + c.toNat % 0x40 - 0x80)
            = c.toNat from by omega]
        rw [ih, Char.ofNat_toNat]
        rfl
      · by_cases h3 : c.toNat < 0x10000
        · have he : utf8EncodeChar c =
              [0xe0 + c.toNat / 0x1000, 0x80 + c.toNat / 0x40 % 0x40, 0x80 + c.toNat % 0x40] := by
            rw [utf8EncodeChar, if_neg h1, if_neg h2, if_pos h3]
          rw [he]
          show utf8Decode ((0xe0 + c.toNat / 0x1000) :: (0x80 + c.toNat / 0x40 % 0x40) ::
            (0x80 + c.toNat % 0x40) :: utf8Encode cs) = some (c :: cs)
          rw [utf8Decode_step3 _ _ _ _ (by omega) (by omega) (by omega) (by omega)
            (by simp [isCont]; omega) (by simp [isCont]; omega) (by omega)]
          rw [show (0xe0 + c.toNat / 0x1000 - 0xe0) * 0x1000 +
              (0x80 + c.toNat / 0x40 % 0x40 - 0x80) * 0x40 + (0x80 + c.toNat % 0x40 - 0x80)
              = c.toNat from by omega]
          rw [ih, Char.ofNat_toNat]
          rfl
        · have hv : c.toNat < 0x110000 := by
            rcases hval with h | ⟨_, hh⟩
            · omega
            · omega
          have he : utf8EncodeChar c =
              [0xf0 + c.toNat / 0x40000, 0x80 + c.toNat / 0x1000 % 0x40,
               0x80 + c.toNat / 0x40 % 0x40, 0x80 + c.toNat % 0x40] := by
            rw [utf8EncodeChar, if_neg h1, if_neg h2, if_neg h3]
          rw [he]
          show utf8Decode ((0xf0 + c.toNat / 0x40000) :: (0x80 + c.toNat / 0x1000 % 0x40) ::
            (0x80 + c.toNat / 0x40 % 0x40) :: (0x80 + c.toNat % 0x40) :: utf8Encode cs)
            = some (c :: cs)
          rw [utf8Decode_step4 _ _ _ _ _ (by omega) (by omega) (by omega) (by omega) (by omega)
            (by simp [isCont]; omega) (by simp [isCont]; omega) (by simp [isCont]; omega)
            (by omega)]
          rw [show (0xf0 + c.toNat / 0x40000 - 0xf0) * 0x40000 +
              (0x80 + c.toNat / 0x1000 % 0x40 - 0x80) * 0x1000 +
              (0x80 + c.toNat / 0x40 % 0x40 - 0x80) * 0x40 + (0x80 + c.toNat % 0x40 - 0x80)
              = c.toNat from by omega]
          rw [ih, Char.ofNat_toNat]
          rfl

/-! Layer 3: JSON.  `json.dumps` output parses back to the same value:
per-layer round trips for strings (escapes, `\uXXXX`, surrogate pairs),
decimal numbers, and the value/array/object grammar by induction on fuel. -/

theorem psb_quote (rest : Chars) : parseStringBody ('"' :: rest) = some ([], rest) := by
  rw [parseStringBody]
  rfl

theorem psb_plain (c : Char) (rest : Chars)
    (h1 : c ≠ '"') (h2 : c ≠ '\\') (h3 : ¬ c.toNat < 0x20) :
    parseStringBody (c :: rest) = (parseStringBody rest).map fun pr => (c :: pr.1, pr.2) := by
  rw [parseStringBody, if_neg h1, if_neg h2, if_neg h3]

theorem psb_backslash (rest : Chars) : parseStringBody ('\\' :: rest) = parseEscape rest := by
  rw [parseStringBody, if_neg (by decide), if_pos rfl]

theorem parseEscape_code (e : Char) (c2 : Char) (rest1 : Chars)
    (hne : e ≠ 'u') (hcode : escapeCode e = some c2) :
    parseEscape (e :: rest1) = (parseStringBody rest1).map fun pr => (c2 :: pr.1, pr.2) := by
  rw [parseEscape, if_neg hne, hcode]

theorem parseEscape_u (rest1 : Chars) : parseEscape ('u' :: rest1) = parseHexEsc rest1 := by
  rw [parseEscape, if_pos rfl]

theorem parseHexEsc_step (h1 h2 h3 h4 : Char) (n : Nat) (rest2 : Chars)
    (hn : hexVal4 h1 h2 h3 h4 = some n)
    (hlo : ¬ (0xd800 ≤ n ∧ n < 0xdc00)) (hhi : ¬ (0xdc00 ≤ n ∧ n < 0xe000)) :
    parseHexEsc (h1 :: h2 :: h3 :: h4 :: rest2) =
      (parseStringBody rest2).map fun pr => (Char.ofNat n :: pr.1, pr.2) := by
  rw [parseHexEsc, hn]
  show (if 0xd800 ≤ n ∧ n < 0xdc00 then parseLowSurrogate n rest2
    else if 0xdc00 ≤ n ∧ n < 0xe000 then none
    else (parseStringBody rest2).map fun pr => (Char.ofNat n :: pr.1, pr.2)) =
      (parseStringBody rest2).map fun pr => (Char.ofNat n :: pr.1, pr.2)
  rw [if_neg hlo, if_neg hhi]

theorem parseHexEsc_sur (h1 h2 h3 h4 : Char) (n : Nat) (rest2 : Chars)
    (hn : hexVal4 h1 h2 h3 h4 = some n) (hin : 0xd800 ≤ n ∧ n < 0xdc00) :
    parseHexEsc (h1 :: h2 :: h3 :: h4 :: rest2) = parseLowSurrogate n rest2 := by
  rw [parseHexEsc, hn]
  show (if 0xd800 ≤ n ∧ n < 0xdc00 then parseLowSurrogate n rest2
    else if 0xdc00 ≤ n ∧ n < 0xe000 then none
    else (parseStringBody rest2).map fun pr => (Char.ofNat n :: pr.1, pr.2)) =
      parseLowSurrogate n rest2
  rw [if_pos hin]

theorem parseLowSurrogate_step (n m : Nat) (g1 g2 g3 g4 : Char) (rest3 : Chars)
    (hm : hexVal4 g1 g2 g3 g4 = some m) (hin : 0xdc00 ≤ m ∧ m < 0xe000) :
    parseLowSurrogate n ('\\' :: 'u' :: g1 :: g2 :: g3 :: g4 :: rest3) =
      (parseStringBody rest3).map fun pr =>
        (Char.ofNat (0x10000 + (n - 0xd800) * 0x400 + (m - 0xdc00)) :: pr.1, pr.2) := by
  rw [parseLowSurrogate, if_pos ⟨rfl, rfl⟩, hm]
  show (if 0xdc00 ≤ m ∧ m < 0xe000 then
      (parseStringBody rest3).map fun pr =>
        (Char.ofNat (0x10000 + (n - 0xd800) * 0x400 + (m - 0xdc00)) :: pr.1, pr.2)
    else none) =
      (parseStringBody rest3).map fun pr =>
        (Char.ofNat (0x10000 + (n - 0xd800) * 0x400 + (m - 0xdc00)) :: pr.1, pr.2)
  rw [if_pos hin]

theorem hexVal_hexDigitChar : ∀ d : Nat, d < 16 → hexVal (hexDigitChar d) = some d := by
  decide

theorem hexVal4_hex4 (v : Nat) (h : v < 0x10000) :
    hexVal4 (hexDigitChar (v / 4096 % 16)) (hexDigitChar (v / 256 % 16))
      (hexDigitChar (v / 16 % 16)) (hexDigitChar (v % 16)) = some v := by
  rw [hexVal4, hexVal_hexDigitChar _ (by omega), hexVal_hexDigitChar _ (by omega),
    hexVal_hexDigitChar _ (by omega), hexVal_hexDigitChar _ (by omega)]
  show some ((((v / 4096 % 16) * 16 + v / 256 % 16) * 16 + v / 16 % 16) * 16 + v % 16) = some v
  exact congrArg some (by omega)

theorem parseStringBody_escStr (cs : Chars) :
    ∀ rest : Chars, parseStringBody (escStr cs ++ ('"' :: rest)) = some (cs, rest) := by
  induction cs with
  | nil =>
    intro rest
    show parseStringBody ('"' :: rest) = some ([], rest)
    exact psb_quote rest
  | cons c cs ih =>
    intro rest
    have hval := char_toNat_valid c
    have hstep : escStr (c :: cs) = escChar c ++ escStr cs := rfl
    rw [hstep, List.append_assoc]
    rw [escChar]
    split_ifs with hq hbs hn hr ht hb8 hf12 hpr hbmp
    · subst hq
      simp only [List.cons_append, List.nil_append]
      rw [psb_backslash, parseEscape_code '"' '"' _ (by decide) (by decide), ih]
      rfl
    · subst hbs
      simp only [List.cons_append, List.nil_append]
      rw [psb_backslash, parseEscape_code '\\' '\\' _ (by decide) (by decide), ih]
      rfl
    · subst hn
      simp only [List.cons_append, List.nil_append]
      rw [psb_backslash, parseEscape_code 'n' '\n' _ (by decide) (by decide), ih]
      rfl
    · subst hr
      simp only [List.cons_append, List.nil_append]
      rw [psb_backslash, parseEscape_code 'r' '\r' _ (by decide) (by decide), ih]
      rfl
    · subst ht
      simp only [List.cons_append, List.nil_append]
      rw [psb_backslash, parseEscape_code 't' '\t' _ (by decide) (by decide), ih]
      rfl
    · have hc : c = Char.ofNat 8 := by rw [← hb8, Char.ofNat_toNat]
      subst hc
      simp only [List.cons_append, List.nil_append]
      rw [psb_backslash, parseEscape_code 'b' (Char.ofNat 8) _ (by decide) (by decide), ih]
      rfl
    · have hc : c = Char.ofNat 12 := by rw [← hf12, Char.ofNat_toNat]
      subst hc
      simp only [List.cons_append, List.nil_append]
      rw [psb_backslash, parseEscape_code 'f' (Char.ofNat 12) _ (by decide) (by decide), ih]
      rfl
    · simp only [List.cons_append, List.nil_append]
      rw [psb_plain c _ (by exact hq) (by exact hbs) (by omega), ih]
      rfl
    · simp only [hex4, List.cons_append, List.nil_append]
      rw [psb_backslash, parseEscape_u,
        parseHexEsc_step _ _ _ _ c.toNat _ (hexVal4_hex4 c.toNat hbmp)
          (by omega) (by omega), ih, Char.ofNat_toNat]
      rfl
    · simp only [hex4, List.cons_append, List.nil_append, List.append_assoc]
      rw [psb_backslash, parseEscape_u,
        parseHexEsc_sur _ _ _ _ (0xd800 + (c.toNat - 0x10000) / 0x400) _
          (hexVal4_hex4 _ (by omega)) (by omega),
        parseLowSurrogate_step _ (0xdc00 + (c.toNat - 0x10000) % 0x400) _ _ _ _ _
          (hexVal4_hex4 _ (by omega)) (by omega), ih]
      rw [show 0x10000 + (0xd800 + (c.toNat - 0x10000) / 0x400 - 0xd800) * 0x400 +
          (0xdc00 + (c.toNat - 0x10000) % 0x400 - 0xdc00) = c.toNat from by omega,
        Char.ofNat_toNat]
      rfl

theorem digitChar_facts : ∀ n : Nat, n < 10 →
    (digitChar n).toNat = 48 + n ∧ (digitChar n).isDigit = true := by
  decide

theorem digitsVal_append_one (ds : Chars) (d : Char) :
    digitsVal (ds ++ [d]) = 10 * digitsVal ds + (d.toNat - 48) := by
  simp [digitsVal, List.foldl_append]

theorem natDigitsAux_spec : ∀ (fuel n : Nat), n < fuel →
    natDigitsAux fuel n ≠ [] ∧ (∀ c ∈ natDigitsAux fuel n, c.isDigit = true) ∧
      digitsVal (natDigitsAux fuel n) = n := by
  intro fuel
  induction fuel with
  | zero => intro n h; omega
  | succ m ih =>
    intro n h
    by_cases h10 : n < 10
    · rw [natDigitsAux, if_pos h10]
      refine ⟨by simp, ?_, ?_⟩
      · intro c hc
        simp only [List.mem_singleton] at hc
        subst hc
        exact (digitChar_facts n h10).2
      · have hd := (digitChar_facts n h10).1
        simp [digitsVal]
        omega
    · obtain ⟨ih1, ih2, ih3⟩ := ih (n / 10) (by omega)
      rw [natDigitsAux, if_neg h10]
      refine ⟨by simp, ?_, ?_⟩
      · intro c hc
        rw [List.mem_append] at hc
        rcases hc with hc | hc
        · exact ih2 c hc
        · simp only [List.mem_singleton] at hc
          subst hc
          exact (digitChar_facts (n % 10) (by omega)).2
      · rw [digitsVal_append_one, ih3]
        have hd := (digitChar_facts (n % 10) (by omega)).1
        omega

theorem isDigit_bounds (c : Char) (h : c.isDigit = true) :
    48 ≤ c.toNat ∧ c.toNat ≤ 57 := by
  simp [Char.isDigit] at h
  exact h

theorem isDigit_not_ws (c : Char) (h : c.isDigit = true) : isWs c = false := by
  rcases hw : isWs c
  · rfl
  · exfalso
    simp [isWs] at hw
    rcases hw with rfl | rfl | rfl | rfl <;> exact absurd h (by decide)

theorem takeWhile_digits (ds rest : Chars) (hds : ∀ c ∈ ds, c.isDigit = true)
    (hrest : headNotDigit rest) :
    (ds ++ rest).takeWhile (·.isDigit) = ds ∧ (ds ++ rest).dropWhile (·.isDigit) = rest := by
  induction ds with
  | nil =>
    simp only [List.nil_append]
    cases rest with
    | nil => exact ⟨rfl, rfl⟩
    | cons c r =>
      have hc : c.isDigit = false := hrest c rfl
      constructor
      · rw [List.takeWhile_cons]
        simp [hc]
      · rw [List.dropWhile_cons]
        simp [hc]
  | cons d ds ihd =>
    have hd : d.isDigit = true := hds d (by simp)
    obtain ⟨h1, h2⟩ := ihd (fun c hc => hds c (by simp [hc]))
    constructor
    · simp only [List.cons_append]
      rw [List.takeWhile_cons]
      simp only [hd, if_true]
      rw [h1]
    · simp only [List.cons_append]
      rw [List.dropWhile_cons]
      simp only [hd, if_true]
      rw [h2]

theorem parseDigits_printed (n : Nat) (rest : Chars) (hrest : headNotDigit rest) :
    parseDigits (natDigitsL n ++ rest) = some (n, rest) := by
  obtain ⟨hne, hdig, hval⟩ := natDigitsAux_spec (n + 1) n (by omega)
  rcases hds : natDigitsAux (n + 1) n with _ | ⟨d, ds⟩
  · exact absurd hds hne
  · have hgoal : natDigitsL n = d :: ds := by rw [natDigitsL, hds]
    rw [hgoal]
    have hd : d.isDigit = true := by
      apply hdig
      rw [hds]; simp
    simp only [List.cons_append]
    rw [parseDigits, if_pos hd]
    obtain ⟨ht, hdr⟩ := takeWhile_digits (d :: ds) rest (by rw [← hds]; exact hdig) hrest
    simp only [← List.cons_append]
    rw [ht, hdr]
    rw [show d :: ds = natDigitsAux (n + 1) n from hds.symm, hval]

theorem skipWs_cons (c : Char) (l : Chars) (h : isWs c = false) : skipWs (c :: l) = c :: l := by
  simp [skipWs, List.dropWhile_cons, h]

theorem skipWs_space (X : Chars) : skipWs (' ' :: X) = skipWs X := rfl

theorem parseJVal_neg (n : Nat) (X : Chars) :
    parseJVal (n + 1) ('-' :: X) =
      (parseDigits X).map fun pr => (.num (-(pr.1 : Int)), pr.2) := rfl

theorem parseJVal_quote (n : Nat) (X : Chars) :
    parseJVal (n + 1) ('"' :: X) =
      (parseStringBody X).map fun pr => (.str ⟨pr.1⟩, pr.2) := rfl

theorem parseJVal_lbrack (n : Nat) (X : Chars) :
    parseJVal (n + 1) ('[' :: X) =
      if (skipWs X).head? = some ']' then some (.arr .nil, (skipWs X).tail)
      else (parseJArr n (skipWs X)).map fun pr => (.arr pr.1, pr.2) := rfl

theorem parseJVal_ws (fuel : Nat) (X : Chars) :
    parseJVal fuel (' ' :: X) = parseJVal fuel X := by
  cases fuel <;> rfl

theorem parseJVal_lbrace (n : Nat) (X : Chars) :
    parseJVal (n + 1) ('\x7b' :: X) =
      if (skipWs X).head? = some '\x7d' then some (.obj .nil, (skipWs X).tail)
      else (parseJObj n (skipWs X)).map fun pr => (.obj pr.1, pr.2) := rfl

theorem isDigit_ne_keys (c : Char) (h : c.isDigit = true) :
    c ≠ 'n' ∧ c ≠ 't' ∧ c ≠ 'f' ∧ c ≠ '"' ∧ c ≠ '-' ∧ c ≠ '[' ∧ c ≠ '\x7b' := by
  refine ⟨?_, ?_, ?_, ?_, ?_, ?_, ?_⟩ <;> (intro he; subst he; exact absurd h (by decide))

theorem parseJVal_digit (fuel : Nat) (c : Char) (X : Chars) (hd : c.isDigit = true) :
    parseJVal (fuel + 1) (c :: X) =
      (parseDigits (c :: X)).map fun pr => (.num (pr.1 : Int), pr.2) := by
  obtain ⟨k1, k2, k3, k4, k5, k6, k7⟩ := isDigit_ne_keys c hd
  rw [parseJVal, skipWs_cons c _ (isDigit_not_ws c hd)]
  simp only [k1, k2, k3, k4, k5, k6, k7, if_false, ite_false]

theorem parseJArr_ws (fuel : Nat) (X : Chars) :
    parseJArr fuel (' ' :: X) = parseJArr fuel X := by
  cases fuel with
  | zero => rfl
  | succ n =>
    rw [parseJArr, parseJArr, parseJVal_ws]

theorem parseJObj_ws (fuel : Nat) (X : Chars) :
    parseJObj fuel (' ' :: X) = parseJObj fuel X := by
  cases fuel with
  | zero => rfl
  | succ n =>
    rw [parseJObj, parseJObj, skipWs_space]

theorem sizeV_pos (v : JVal) : 1 ≤ sizeV v := by
  cases v <;> simp [sizeV]

theorem natDigitsL_head (m : Nat) : ∃ d ds, natDigitsL m = d :: ds ∧ d.isDigit = true := by
  obtain ⟨hne, hdig, _⟩ := natDigitsAux_spec (m + 1) m (by omega)
  rcases hds : natDigitsAux (m + 1) m with _ | ⟨d, ds⟩
  · exact absurd hds hne
  · exact ⟨d, ds, by rw [natDigitsL, hds], hdig d (by rw [hds]; simp)⟩

theorem printJVal_head (v : JVal) :
    ∃ c t, printJVal v = c :: t ∧ isWs c = false ∧ c ≠ ']' ∧ c ≠ '\x7d' := by
  cases v with
  | null => exact ⟨'n', _, rfl, by decide, by decide, by decide⟩
  | bool b =>
    cases b with
    | false => exact ⟨'f', _, rfl, by decide, by decide, by decide⟩
    | true => exact ⟨'t', _, rfl, by decide, by decide, by decide⟩
  | num i =>
    by_cases hi : i < 0
    · refine ⟨'-', natDigitsL i.natAbs, ?_, by decide, by decide, by decide⟩
      show intReprL i = '-' :: natDigitsL i.natAbs
      rw [intReprL, if_pos hi]
    · obtain ⟨d, ds, hds, hd⟩ := natDigitsL_head i.natAbs
      refine ⟨d, ds, ?_, isDigit_not_ws d hd, ?_, ?_⟩
      · show intReprL i = d :: ds
        rw [intReprL, if_neg hi, hds]
      · intro he; subst he; exact absurd hd (by decide)
      · intro he; subst he; exact absurd hd (by decide)
  | str s => exact ⟨'"', _, rfl, by decide, by decide, by decide⟩
  | arr a =>
    cases a with
    | nil => exact ⟨'[', _, rfl, by decide, by decide, by decide⟩
    | cons v vs => exact ⟨'[', _, rfl, by decide, by decide, by decide⟩
  | obj o =>
    cases o with
    | nil => exact ⟨'\x7b', _, rfl, by decide, by decide, by decide⟩
    | cons k v ms => exact ⟨'\x7b', _, rfl, by decide, by decide, by decide⟩

theorem headNotDigit_nil : headNotDigit [] := by
  intro x hx
  simp at hx

theorem headNotDigit_cons (c : Char) (h : c.isDigit = false) (l : Chars) :
    headNotDigit (c :: l) := by
  intro x hx
  rw [List.head?_cons] at hx
  have hxc := Option.some.inj hx
  rw [← hxc]; exact h

theorem headNotDigit_printJArr_close (vs : JArr) (rest : Chars) :
    headNotDigit (printJArr vs ++ (']' :: rest)) := by
  cases vs with
  | nil => exact headNotDigit_cons ']' (by decide) rest
  | cons v2 vs2 => exact headNotDigit_cons ',' (by decide) _

theorem headNotDigit_printJObj_close (ms : JObj) (rest : Chars) :
    headNotDigit (printJObj ms ++ ('\x7d' :: rest)) := by
  cases ms with
  | nil => exact headNotDigit_cons '\x7d' (by decide) rest
  | cons k2 v2 ms2 => exact headNotDigit_cons ',' (by decide) _

theorem parseJObj_quote (n : Nat) (X : Chars) :
    parseJObj (n + 1) ('"' :: X) =
      (parseStringBody X).bind fun kr =>
        match skipWs kr.2 with
        | ':' :: rest2 =>
          (parseJVal n rest2).bind fun vr =>
            match skipWs vr.2 with
            | ',' :: rest3 => (parseJObj n rest3).map fun mr => (.cons ⟨kr.1⟩ vr.1 mr.1, mr.2)
            | '\x7d' :: rest3 => some (.cons ⟨kr.1⟩ vr.1 .nil, rest3)
            | _ => none
        | _ => none := rfl

theorem RT_parse : ∀ fuel : Nat,
    (∀ (v : JVal) (rest : Chars), sizeV v ≤ fuel → headNotDigit rest →
      parseJVal fuel (printJVal v ++ rest) = some (v, rest)) ∧
    (∀ (v : JVal) (vs : JArr) (rest : Chars), 1 + sizeV v + sizeA vs ≤ fuel →
      headNotDigit rest →
      parseJArr fuel (printJVal v ++ (printJArr vs ++ (']' :: rest))) =
        some (.cons v vs, rest)) ∧
    (∀ (k : String) (v : JVal) (ms : JObj) (rest : Chars), 1 + sizeV v + sizeO ms ≤ fuel →
      headNotDigit rest →
      parseJObj fuel ('"' :: (escStr k.data ++ ('"' :: ':' :: ' ' :: (printJVal v ++
        (printJObj ms ++ ('\x7d' :: rest)))))) = some (.cons k v ms, rest)) := by
  intro fuel
  induction fuel with
  | zero =>
    refine ⟨?_, ?_, ?_⟩
    · intro v rest hsz _
      have := sizeV_pos v; omega
    · intro v vs rest hsz _
      have := sizeV_pos v; omega
    · intro k v ms rest hsz _
      have := sizeV_pos v; omega
  | succ n ih =>
    obtain ⟨ihV, ihA, ihO⟩ := ih
    refine ⟨?_, ?_, ?_⟩
    · intro v rest hsz hrest
      cases v with
      | null => rfl
      | bool b =>
        cases b with
        | false => rfl
        | true => rfl
      | num i =>
        show parseJVal (n + 1) (intReprL i ++ rest) = some (.num i, rest)
        by_cases hi : i < 0
        · rw [intReprL, if_pos hi]
          simp only [List.cons_append]
          rw [parseJVal_neg, parseDigits_printed _ _ hrest]
          show some (JVal.num (-((i.natAbs : Nat) : Int)), rest) = some (JVal.num i, rest)
          rw [show (-((i.natAbs : Nat) : Int)) = i from by omega]
        · rw [intReprL, if_neg hi]
          obtain ⟨d, ds, hds, hd⟩ := natDigitsL_head i.natAbs
          rw [hds]
          simp only [List.cons_append]
          rw [parseJVal_digit n d _ hd]
          simp only [← List.cons_append]
          rw [← hds, parseDigits_printed _ _ hrest]
          show some (JVal.num ((i.natAbs : Nat) : Int), rest) = some (JVal.num i, rest)
          rw [show ((i.natAbs : Nat) : Int) = i from by omega]
      | str s =>
        show parseJVal (n + 1) ('"' :: ((escStr s.data ++ ['"']) ++ rest)) = some (.str s, rest)
        rw [parseJVal_quote, List.append_assoc, List.singleton_append,
          parseStringBody_escStr]
        rfl
      | arr a =>
        cases a with
        | nil => rfl
        | cons v vs =>
          simp only [printJVal]
          simp only [List.cons_append, List.append_assoc, List.singleton_append]
          rw [parseJVal_lbrack]
          obtain ⟨c0, t0, hv0, hw0, hne0, hne0b⟩ := printJVal_head v
          rw [hv0]
          simp only [List.cons_append]
          rw [skipWs_cons c0 _ hw0, List.head?_cons, if_neg (by simp [hne0])]
          simp only [← List.cons_append]
          rw [← hv0]
          simp only [List.singleton_append]
          rw [ihA v vs rest (by simp [sizeV, sizeA] at hsz; omega) hrest]
          rfl
      | obj o =>
        cases o with
        | nil => rfl
        | cons k v ms =>
          simp only [printJVal]
          simp only [List.cons_append, List.append_assoc, List.singleton_append,
            List.nil_append]
          rw [parseJVal_lbrace]
          rw [skipWs_cons '"' _ (by decide), List.head?_cons, if_neg (by decide)]
          rw [ihO k v ms rest (by simp [sizeV, sizeO] at hsz; omega) hrest]
          rfl
    · intro v vs rest hsz hrest
      rw [parseJArr,
        ihV v (printJArr vs ++ (']' :: rest)) (by omega)
          (headNotDigit_printJArr_close vs rest)]
      simp only [Option.some_bind]
      cases vs with
      | nil =>
        simp only [printJArr, List.nil_append]
        rw [skipWs_cons ']' _ (by decide)]
        rfl
      | cons v2 vs2 =>
        simp only [printJArr, List.cons_append, List.append_assoc]
        rw [skipWs_cons ',' _ (by decide)]
        show (parseJArr n (' ' :: (printJVal v2 ++ (printJArr vs2 ++ (']' :: rest))))).map
            (fun qr => (JArr.cons v qr.1, qr.2)) = some (.cons v (.cons v2 vs2), rest)
        rw [parseJArr_ws, ihA v2 vs2 rest (by simp [sizeA] at hsz ⊢; omega) hrest]
        rfl
    · intro k v ms rest hsz hrest
      rw [parseJObj_quote, parseStringBody_escStr]
      simp only [Option.some_bind]
      rw [skipWs_cons ':' _ (by decide)]
      show (parseJVal n (' ' :: (printJVal v ++ (printJObj ms ++ ('\x7d' :: rest))))).bind
          (fun vr =>
            match skipWs vr.2 with
            | ',' :: rest3 => (parseJObj n rest3).map fun mr =>
                (JObj.cons ⟨k.data⟩ vr.1 mr.1, mr.2)
            | '\x7d' :: rest3 => some (.cons ⟨k.data⟩ vr.1 .nil, rest3)
            | _ => none) = some (.cons k v ms, rest)
      rw [parseJVal_ws, ihV v _ (by omega) (headNotDigit_printJObj_close ms rest)]
      simp only [Option.some_bind]
      cases ms with
      | nil =>
        simp only [printJObj, List.nil_append]
        rw [skipWs_cons '\x7d' _ (by decide)]
        rfl
      | cons k2 v2 ms2 =>
        simp only [printJObj, List.cons_append, List.append_assoc, List.nil_append]
        rw [skipWs_cons ',' _ (by decide)]
        show (parseJObj n (' ' :: ('"' :: (escStr k2.data ++ ('"' :: ':' :: ' ' ::
            (printJVal v2 ++ (printJObj ms2 ++ ('\x7d' :: rest)))))))).map
            (fun mr => (JObj.cons ⟨k.data⟩ v mr.1, mr.2)) =
              some (.cons k v (.cons k2 v2 ms2), rest)
        rw [parseJObj_ws, ihO k2 v2 ms2 rest (by simp [sizeO] at hsz ⊢; omega) hrest]
        rfl

mutual
theorem sizeV_le_print : ∀ v : JVal, sizeV v ≤ (printJVal v).length
  | .null => by decide
  | .bool true => by decide
  | .bool false => by decide
  | .num i => by
    show 1 ≤ (intReprL i).length
    by_cases hi : i < 0
    · rw [intReprL, if_pos hi]; simp
    · obtain ⟨d, ds, hds, _⟩ := natDigitsL_head i.natAbs
      rw [intReprL, if_neg hi, hds]; simp
  | .str s => by
    show 1 ≤ (printJVal (.str s)).length
    simp [printJVal]
  | .arr .nil => by decide
  | .arr (.cons v vs) => by
    have h1 := sizeV_le_print v
    have h2 := sizeA_le_print vs
    simp [sizeV, sizeA, printJVal, List.length_append]
    omega
  | .obj .nil => by decide
  | .obj (.cons k v ms) => by
    have h1 := sizeV_le_print v
    have h2 := sizeO_le_print ms
    simp [sizeV, sizeO, printJVal, List.length_append]
    omega
theorem sizeA_le_print : ∀ a : JArr, sizeA a ≤ (printJArr a).length
  | .nil => by simp [sizeA]
  | .cons v vs => by
    have h1 := sizeV_le_print v
    have h2 := sizeA_le_print vs
    simp [sizeA, printJArr, List.length_append]
    omega
theorem sizeO_le_print : ∀ o : JObj, sizeO o ≤ (printJObj o).length
  | .nil => by simp [sizeO]
  | .cons k v ms => by
    have h1 := sizeV_le_print v
    have h2 := sizeO_le_print ms
    simp [sizeO, printJObj, List.length_append]
    omega
end

theorem pyJsonLoads_print (m : JVal) : pyJsonLoads (printJVal m) = some m := by
  rw [pyJsonLoads]
  have h := (RT_parse ((printJVal m).length + 1)).1 m []
    (le_trans (sizeV_le_print m) (by omega)) headNotDigit_nil
  rw [List.append_nil] at h
  rw [h]
  rfl

theorem printJVal_ne_nil (v : JVal) : printJVal v ≠ [] := by
  obtain ⟨c, t, hv, _⟩ := printJVal_head v
  rw [hv]; simp

theorem utf8EncodeChar_ne_nil (c : Char) : utf8EncodeChar c ≠ [] := by
  rw [utf8EncodeChar]
  split_ifs <;> simp

theorem utf8Encode_ne_nil (cs : Chars) (h : cs ≠ []) : utf8Encode cs ≠ [] := by
  cases cs with
  | nil => exact absurd rfl h
  | cons c cs =>
    show utf8EncodeChar c ++ utf8Encode cs ≠ []
    simp [List.append_eq_nil, utf8EncodeChar_ne_nil c]

theorem b64Encode_ne_nil (bs : List Nat) (h : bs ≠ []) : b64Encode bs ≠ [] := by
  cases bs with
  | nil => exact absurd rfl h
  | cons a bs1 =>
    cases bs1 with
    | nil => simp [b64Encode]
    | cons b bs2 =>
      cases bs2 with
      | nil => simp [b64Encode]
      | cons d rest => simp [b64Encode]

theorem load_save_roundtrip (m : JVal) : load_cache (some (save_cache m)) = m := by
  have hne : b64Encode (utf8Encode (printJVal m)) ≠ [] :=
    b64Encode_ne_nil _ (utf8Encode_ne_nil _ (printJVal_ne_nil m))
  have hemp : (b64Encode (utf8Encode (printJVal m))).isEmpty = false := by
    rcases hX : b64Encode (utf8Encode (printJVal m)) with _ | ⟨a, t⟩
    · exact absurd hX hne
    · rfl
  have hdata : (save_cache m).data = b64Encode (utf8Encode (printJVal m)) := rfl
  rw [load_cache, hdata, if_neg (by rw [hemp]; exact Bool.false_ne_true)]
  rw [pyB64Decode_b64Encode _ (utf8Encode_lt _)]
  show (match utf8Decode (utf8Encode (printJVal m)) with
    | none => JVal.obj .nil
    | some chars =>
      match pyJsonLoads chars with
      | none => JVal.obj .nil
      | some v => v) = m
  rw [utf8Decode_utf8Encode]
  show (match pyJsonLoads (printJVal m) with
    | none => JVal.obj .nil
    | some v => v) = m
  rw [pyJsonLoads_print]


/-- C7: the cache persistence layer round-trips.  Writing any
JSON-representable cache map with `_save_cache`
(`base64(utf8(json.dumps(m)))`, lines 106-113) and loading it back with
`_load_cache` (lines 79-90) yields an equal map; saving what was loaded and
loading again changes nothing (save-after-load idempotence); and a missing
file, an empty file, a non-base64 file, or a base64 file that is not JSON
all make `_load_cache` return the empty map instead of raising. -/
theorem C7_cache_round_trip :
    (∀ m : JVal, load_cache (some (save_cache m)) = m) ∧
    (∀ f : Option String, load_cache (some (save_cache (load_cache f))) = load_cache f) ∧
    load_cache none = .obj .nil ∧
    load_cache (some "") = .obj .nil ∧
    load_cache (some "%%%") = .obj .nil ∧
    load_cache (some "aGVsbG8=") = .obj .nil :=
  ⟨load_save_roundtrip, fun f => load_save_roundtrip (load_cache f), rfl, rfl, rfl, rfl⟩

end DLHD
